import Mathlib

/-!
Verification of the turn-execution pipeline of the `infiniact/codex` runtime.

This file shallowly embeds the Rust sources under `codex-rs/` in Lean 4 and
proves (or refutes) the frozen specification claims about them.  Every
definition mirrors one Rust item; module paths are given in the doc comments.
Machine integers that cannot overflow in the modelled code paths are embedded
as `Nat`/`Int`; fractional second values are embedded as exact rationals.
-/

namespace Codex

/-! ## Protocol data model (`codex-protocol`, spec section 3)

The `codex-protocol` crate itself is not part of the analysed sources; its
shapes are reconstructed from spec section 3 and from every use site in
`codex-rs/core` and `codex-rs/codex-api`. -/

/-- `ContentItem` from `codex_protocol::models`. -/
inductive ContentItem where
  | inputText (text : String)
  | outputText (text : String)
  | inputImage (imageUrl : String)
deriving DecidableEq, Repr

/-- `ReasoningItemContent` from `codex_protocol::models` (both variants are
matched in `requests/chat.rs`). -/
inductive ReasoningItemContent where
  | reasoningText (text : String)
  | text (text : String)
deriving DecidableEq, Repr

/-- `FunctionCallOutputContentItem` from `codex_protocol::models`. -/
inductive FunctionCallOutputContentItem where
  | inputText (text : String)
  | inputImage (imageUrl : String)
deriving DecidableEq, Repr

/-- `FunctionCallOutputPayload` from `codex_protocol::models`; its
`Default::default()` has empty content and absent optional fields. -/
structure FunctionCallOutputPayload where
  content : String
  success : Option Bool
  contentItems : Option (List FunctionCallOutputContentItem)
deriving DecidableEq, Repr

/-- `ResponseItem` from `codex_protocol::models` (spec section 3).  The
`LocalShellCall` status/action payloads and the web-search payload are opaque
to every claim and are embedded as strings. -/
inductive ResponseItem where
  | message (id : Option String) (role : String) (content : List ContentItem)
  | reasoning (id : String) (summary : List String)
      (content : Option (List ReasoningItemContent)) (encryptedContent : Option String)
  | functionCall (id : Option String) (name : String) (arguments : String)
      (callId : String) (thoughtSignature : Option String)
  | functionCallOutput (callId : String) (output : FunctionCallOutputPayload)
  | localShellCall (id : Option String) (callId : Option String)
      (status : String) (action : String)
  | customToolCall (id : Option String) (callId : String) (name : String)
      (input : String) (status : String)
  | customToolCallOutput (callId : String) (output : String)
  | webSearchCall (id : Option String) (status : String)
  | ghostSnapshot
  | compactionSummary
  | other
deriving DecidableEq, Repr

/-- `TokenUsage` from `codex_protocol::protocol` (all fields are `i64`). -/
structure TokenUsage where
  inputTokens : Int
  cachedInputTokens : Int
  outputTokens : Int
  reasoningOutputTokens : Int
  totalTokens : Int
deriving DecidableEq, Repr

/-- `ResponseEvent` from `codex-api/src/common.rs` (spec section 3). -/
inductive ResponseEvent where
  | created
  | outputItemAdded (item : ResponseItem)
  | outputTextDelta (delta : String)
  | reasoningSummaryDelta (delta : String) (summaryIndex : Int)
  | reasoningContentDelta (delta : String) (contentIndex : Int)
  | reasoningSummaryPartAdded (summaryIndex : Int)
  | outputItemDone (item : ResponseItem)
  | completed (responseId : String) (tokenUsage : Option TokenUsage)
deriving DecidableEq, Repr

/-- `std::time::Duration` restricted to the values produced by the decoders:
an exact number of seconds as a rational. -/
abbrev Duration := ℚ

/-- The subset of `ApiError` (`codex-api/src/error.rs`) constructed by
`process_sse`. -/
inductive ApiError where
  | stream (msg : String)
  | retryable (message : String) (delay : Option Duration)
  | contextWindowExceeded
  | quotaExceeded
  | usageNotIncluded
deriving DecidableEq, Repr

/-- One element sent on the decoder mailbox: `Result<ResponseEvent, ApiError>`. -/
inductive OutEvent where
  | ok (ev : ResponseEvent)
  | err (e : ApiError)
deriving DecidableEq, Repr

/-! ## Context manager normalization
(`core/src/context_manager/normalize.rs`) -/

/-- The synthetic placeholder output `ensure_call_outputs_present` inserts for
a call item that lacks an output (`normalize.rs` lines 30-39, 54-60, 77-86);
`none` for items that are not calls carrying a `call_id`. -/
def placeholderFor : ResponseItem → Option ResponseItem
  | .functionCall _ _ _ callId _ =>
      some (.functionCallOutput callId
        ⟨"aborted (tool execution interrupted)", none, none⟩)
  | .customToolCall _ callId _ _ _ =>
      some (.customToolCallOutput callId "aborted (tool execution interrupted)")
  | .localShellCall _ (some callId) _ _ =>
      some (.functionCallOutput callId
        ⟨"aborted (tool execution interrupted)", none, none⟩)
  | _ => none

/-- `items.iter().any(..)` match for a `FunctionCallOutput` with the given id. -/
def hasFnOutput (items : List ResponseItem) (callId : String) : Bool :=
  items.any fun i =>
    match i with
    | .functionCallOutput existing _ => existing == callId
    | _ => false

/-- `items.iter().any(..)` match for a `CustomToolCallOutput` with the given id. -/
def hasCustomOutput (items : List ResponseItem) (callId : String) : Bool :=
  items.any fun i =>
    match i with
    | .customToolCallOutput existing _ => existing == callId
    | _ => false

/-- Whether a `FunctionCall` with the given `call_id` occurs in `items`. -/
def hasFnCall (items : List ResponseItem) (callId : String) : Bool :=
  items.any fun i =>
    match i with
    | .functionCall _ _ _ existing _ => existing == callId
    | _ => false

/-- Whether a `LocalShellCall` with `call_id = Some callId` occurs in `items`. -/
def hasShellCall (items : List ResponseItem) (callId : String) : Bool :=
  items.any fun i =>
    match i with
    | .localShellCall _ (some existing) _ _ => existing == callId
    | _ => false

/-- Whether a `CustomToolCall` with the given `call_id` occurs in `items`. -/
def hasCustomCall (items : List ResponseItem) (callId : String) : Bool :=
  items.any fun i =>
    match i with
    | .customToolCall _ existing _ _ _ => existing == callId
    | _ => false

/-- The per-item "call whose output is missing from `items`" test performed by
the loop of `ensure_call_outputs_present` (`normalize.rs` lines 14-92). -/
def lacksOutput (items : List ResponseItem) : ResponseItem → Bool
  | .functionCall _ _ _ callId _ => !hasFnOutput items callId
  | .customToolCall _ callId _ _ _ => !hasCustomOutput items callId
  | .localShellCall _ (some callId) _ _ => !hasFnOutput items callId
  | _ => false

/-- The enumeration-and-filter underlying `missing_outputs_to_insert`,
parameterized by the full list the missing-output test refers to. -/
def missingFrom (full : List ResponseItem) (items : List ResponseItem) :
    List (Nat × ResponseItem) :=
  items.enum.filterMap fun p =>
    match placeholderFor p.2 with
    | some ph => if lacksOutput full p.2 then some (p.1, ph) else none
    | none => none

/-- The `missing_outputs_to_insert` vector of `ensure_call_outputs_present`:
`(index of call, synthetic output)` pairs collected in iteration order. -/
def missingOutputs (items : List ResponseItem) : List (Nat × ResponseItem) :=
  missingFrom items items

/-- The per-item expansion `ensure_call_outputs_present` is proved equal to:
each call lacking an output (w.r.t. `full`) is followed directly by its
synthetic placeholder. -/
def pairFill (full : List ResponseItem) : List ResponseItem → List ResponseItem
  | [] => []
  | item :: rest =>
    match placeholderFor item with
    | some ph =>
      if lacksOutput full item then item :: ph :: pairFill full rest
      else item :: pairFill full rest
    | none => item :: pairFill full rest

/-- `ensure_call_outputs_present` (`normalize.rs` lines 8-98): collect the
missing synthetic outputs, then insert them in reverse index order at
`idx + 1`. -/
def ensure_call_outputs_present (items : List ResponseItem) : List ResponseItem :=
  (missingOutputs items).reverse.foldl
    (fun acc p => acc.insertIdx (p.1 + 1) p.2) items

/-- `remove_orphan_outputs` (`normalize.rs` lines 100-151): retain outputs
whose `call_id` is among the ids of the calls present in the original list. -/
def remove_orphan_outputs (items : List ResponseItem) : List ResponseItem :=
  items.filter fun item =>
    match item with
    | .functionCallOutput callId _ => hasFnCall items callId || hasShellCall items callId
    | .customToolCallOutput callId _ => hasCustomCall items callId
    | _ => true

/-- Modelled from the spec: `get_history_for_prompt` (the context-manager
entry point is not among the analysed sources; spec section 4.5 states that it
runs, in order, (a) pair-fill = `ensure_call_outputs_present`, (b) orphan
prune = `remove_orphan_outputs`, then (c) reasoning anchor resolution and (d)
image deduplication, which touch only `Reasoning` and `Message` items and are
therefore omitted here as they cannot affect call/output pairing). -/
def get_history_for_prompt (history : List ResponseItem) : List ResponseItem :=
  remove_orphan_outputs (ensure_call_outputs_present history)

/-- The pairing invariant of spec section 3 (invariants 1-2): every call has a
matching output and every output has a matching call. -/
def pairingOk (items : List ResponseItem) : Bool :=
  items.all fun item =>
    match item with
    | .functionCall _ _ _ callId _ => hasFnOutput items callId
    | .customToolCall _ callId _ _ _ => hasCustomOutput items callId
    | .localShellCall _ (some callId) _ _ => hasFnOutput items callId
    | .functionCallOutput callId _ => hasFnCall items callId || hasShellCall items callId
    | .customToolCallOutput callId _ => hasCustomCall items callId
    | _ => true

/-- `seg` occurs contiguously inside `l`. -/
def SegIn {α : Type} (seg l : List α) : Prop :=
  ∃ s t, l = s ++ seg ++ t

/-! ## Plan tool handler (`core/src/tools/handlers/plan.rs`) -/

/-- `StepStatus` from `codex_protocol::plan_tool`. -/
inductive StepStatus where
  | pending
  | inProgress
  | completed
deriving DecidableEq, Repr

/-- `PlanItemArg` from `codex_protocol::plan_tool`. -/
structure PlanItemArg where
  step : String
  status : StepStatus
deriving DecidableEq, Repr

/-- `UpdatePlanArgs` from `codex_protocol::plan_tool`. -/
structure UpdatePlanArgs where
  explanation : Option String
  plan : List PlanItemArg
deriving DecidableEq, Repr

/-- The slice of `SessionState` (`core/src/state/session.rs`) the plan handler
touches: the `current_plan` cell (`set_current_plan` stores,
`clear_current_plan` clears; neither validates anything). -/
structure PlanSessionState where
  currentPlan : Option UpdatePlanArgs
deriving DecidableEq, Repr

/-- Number of `Pending` steps (`plan.rs` lines 110-114). -/
def pendingCount (args : UpdatePlanArgs) : Nat :=
  args.plan.countP fun s => s.status == StepStatus.pending

/-- Number of `InProgress` steps (`plan.rs` lines 115-119). -/
def inProgressCount (args : UpdatePlanArgs) : Nat :=
  args.plan.countP fun s => s.status == StepStatus.inProgress

/-- `handle_update_plan` (`plan.rs` lines 101-138) after a successful
`parse_update_plan_arguments` (the JSON/XML argument recovery parser is a
text-level front end and is not modelled; this function receives its parsed
result).  It counts steps, unconditionally stores the plan on the session,
emits the `PlanUpdate` event (not modelled: event channel), and returns the
reminder string; when nothing is pending or in progress it clears the plan.
The surrounding `PlanHandler::handle` wraps the returned string in
`ToolOutput::Function { success: Some(true), .. }`. -/
def handle_update_plan (args : UpdatePlanArgs) (session : PlanSessionState) :
    PlanSessionState × String :=
  let pending := pendingCount args
  let inProgress := inProgressCount args
  let session := { session with currentPlan := some args }
  if pending > 0 || inProgress > 0 then
    (session,
      "Plan updated. " ++ toString pending ++ " step(s) pending, " ++
        toString inProgress ++
        " step(s) in progress. Continue executing the remaining steps.")
  else
    ({ session with currentPlan := none }, "Plan updated. All steps completed.")

/-! ## Turn signing (`codex-api/src/turn_signing.rs`) -/

/-- `TURN_SIGNING_SECRET` (`turn_signing.rs` line 14). -/
def TURN_SIGNING_SECRET : String := "iaterm_turn_signing_secret_v1"

/-- `SIGNATURE_VALIDITY_SECONDS` (`turn_signing.rs` line 18). -/
def SIGNATURE_VALIDITY_SECONDS : Nat := 300

/-- Abstraction of `HMAC-SHA256(key, message)` followed by hex encoding
(`compute_signature`, `turn_signing.rs` lines 72-77).  The cryptographic
digest is modelled as a function that is injective in the message for the
(single, compiled-in) key — i.e. collisions are assumed not to occur, which is
the premise under which the spec's tamper-detection claim is meaningful.  With
that abstraction the digest is simply the MAC input message itself. -/
def hmacSha256Hex (_key message : String) : String := message

/-- `compute_signature` (`turn_signing.rs` lines 68-78): MAC over
`"{conversation_id}:{user|system}:{timestamp}"`. -/
def compute_signature (conversationId : String) (isUserTurn : Bool)
    (timestamp : Nat) : String :=
  let turnStr := if isUserTurn then "user" else "system"
  hmacSha256Hex TURN_SIGNING_SECRET
    (conversationId ++ ":" ++ turnStr ++ ":" ++ toString timestamp)

/-- `TurnSignature` (`turn_signing.rs` lines 22-29). -/
structure TurnSignature where
  isUserTurn : Bool
  timestamp : Nat
  signature : String
deriving DecidableEq, Repr

/-- `TurnSignature::sign` (`turn_signing.rs` lines 40-53); the wall clock read
is made explicit as the `now` argument. -/
def TurnSignature.sign (conversationId : String) (isUserTurn : Bool)
    (now : Nat) : TurnSignature :=
  ⟨isUserTurn, now, compute_signature conversationId isUserTurn now⟩

/-- `constant_time_compare` (`turn_signing.rs` lines 125-135): length check
plus XOR-fold over bytes — functionally string equality. -/
def constant_time_compare (a b : String) : Bool := a == b

/-- `verify_signature` (`turn_signing.rs` lines 92-122); the wall clock read
is made explicit as the `now` argument. -/
def verify_signature (conversationId : String) (isUserTurn : Bool)
    (timestamp : Nat) (signature : String) (now : Nat) : Except String Unit :=
  if now > timestamp + SIGNATURE_VALIDITY_SECONDS then
    .error "Signature expired"
  else if timestamp > now + 60 then
    .error "Timestamp in future"
  else if constant_time_compare
      (compute_signature conversationId isUserTurn timestamp) signature then
    .ok ()
  else
    .error "Invalid signature"

/-! ## A model of `serde_json::Value`

JSON numbers are embedded as integers: every numeric field the decoders read
(`index`, usage counters) is an integer in the wire protocol. -/

/-- `serde_json::Value` (object fields are unique-keyed, as produced by the
parser). -/
inductive Json where
  | null
  | bool (b : Bool)
  | num (n : Int)
  | str (s : String)
  | arr (elems : List Json)
  | obj (fields : List (String × Json))

/-- `Value::get(key)` on objects (first matching field). -/
def Json.get : Json → String → Option Json
  | .obj fields, key => fields.lookup key
  | _, _ => none

/-- `Value::as_str`. -/
def Json.asStr : Json → Option String
  | .str s => some s
  | _ => none

/-- `Value::as_array`. -/
def Json.asArr : Json → Option (List Json)
  | .arr elems => some elems
  | _ => none

/-- `Value::as_i64`. -/
def Json.asI64 : Json → Option Int
  | .num n => some n
  | _ => none

/-- `Value::as_u64` (negative numbers are not `u64`). -/
def Json.asU64 : Json → Option Nat
  | .num n => if n < 0 then none else some n.toNat
  | _ => none

/-- `v.get(key).and_then(Value::as_str)`. -/
def Json.getStr (v : Json) (key : String) : Option String :=
  (v.get key).bind Json.asStr

/-- `v.get(key).and_then(Value::as_i64).unwrap_or(d)`. -/
def Json.getI64D (v : Json) (key : String) (d : Int) : Int :=
  ((v.get key).bind Json.asI64).getD d

/-! ## Deserialization of protocol items

`serde_json::from_value::<ResponseItem>` lives in the `codex-protocol` crate,
which is not among the analysed sources.  Modelled from the spec (section 3
data model): items are externally tagged by a `type` field; only the variants
the decoders deserialize from provider payloads (`message`, `reasoning`) are
accepted, with required fields as in the spec's shapes.  Each claim that
touches this parser depends only on whether it succeeds. -/

/-- Parse one element of a `message` content array. -/
def parseContentItem (v : Json) : Option ContentItem :=
  match v.getStr "type" with
  | some "input_text" => (v.getStr "text").map ContentItem.inputText
  | some "output_text" => (v.getStr "text").map ContentItem.outputText
  | some "input_image" => (v.getStr "image_url").map ContentItem.inputImage
  | _ => none

/-- Parse one element of a reasoning `content` array. -/
def parseReasoningContent (v : Json) : Option ReasoningItemContent :=
  match v.getStr "type" with
  | some "reasoning_text" => (v.getStr "text").map ReasoningItemContent.reasoningText
  | some "text" => (v.getStr "text").map ReasoningItemContent.text
  | _ => none

/-- Parse one element of a reasoning `summary` array (`SummaryText`). -/
def parseSummaryText (v : Json) : Option String :=
  match v.getStr "type" with
  | some "summary_text" => v.getStr "text"
  | _ => none

/-- Option-valued traversal of a list. -/
def mapMOpt {α β : Type} (f : α → Option β) : List α → Option (List β)
  | [] => some []
  | a :: rest =>
    match f a, mapMOpt f rest with
    | some b, some bs => some (b :: bs)
    | _, _ => none

/-- Modelled from the spec: `serde_json::from_value::<ResponseItem>` for the
provider-emitted variants. -/
def parseResponseItem (v : Json) : Option ResponseItem :=
  match v.getStr "type" with
  | some "message" =>
    match v.getStr "role", (v.get "content").bind Json.asArr with
    | some role, some contentArr =>
      (mapMOpt parseContentItem contentArr).map fun content =>
        ResponseItem.message (v.getStr "id") role content
    | _, _ => none
  | some "reasoning" =>
    match (v.get "summary").bind Json.asArr with
    | some summaryArr =>
      (mapMOpt parseSummaryText summaryArr).map fun summary =>
        ResponseItem.reasoning ((v.getStr "id").getD "") summary
          (match (v.get "content").bind Json.asArr with
           | some contentArr => mapMOpt parseReasoningContent contentArr
           | none => none)
          (v.getStr "encrypted_content")
    | none => none
  | _ => none

/-! ## Responses-API SSE decoder (`codex-api/src/sse/responses.rs`) -/

/-- The `Error` struct of `responses.rs` lines 66-74 (all fields optional). -/
structure SseError where
  etype : Option String
  code : Option String
  message : Option String
  planType : Option String
  resetsAt : Option Int
deriving DecidableEq, Repr

/-- `serde_json::from_value::<Error>`: any object parses (unknown fields are
ignored, every declared field is `Option`); a present field of the wrong type
fails. -/
def parseSseError : Json → Option SseError
  | .obj fields =>
    let getOptStr : String → Option (Option String) := fun key =>
      match (Json.obj fields).get key with
      | none => some none
      | some .null => some none
      | some (.str s) => some (some s)
      | some _ => none
    let getOptInt : String → Option (Option Int) := fun key =>
      match (Json.obj fields).get key with
      | none => some none
      | some .null => some none
      | some (.num n) => some (some n)
      | some _ => none
    match getOptStr "type", getOptStr "code", getOptStr "message",
        getOptStr "plan_type", getOptInt "resets_at" with
    | some t, some c, some m, some p, some r => some ⟨t, c, m, p, r⟩
    | _, _, _, _, _ => none
  | _ => none

/-- `ResponseCompletedUsage` (`responses.rs` lines 84-91) converted to
`TokenUsage` via the `From` impl (lines 93-109). -/
def parseCompletedUsage (v : Json) : Option TokenUsage :=
  match (v.get "input_tokens").bind Json.asI64,
      (v.get "output_tokens").bind Json.asI64,
      (v.get "total_tokens").bind Json.asI64 with
  | some inputTokens, some outputTokens, some totalTokens =>
    match (match v.get "input_tokens_details" with
           | none => some 0
           | some .null => some 0
           | some d => (d.get "cached_tokens").bind Json.asI64),
        (match v.get "output_tokens_details" with
         | none => some 0
         | some .null => some 0
         | some d => (d.get "reasoning_tokens").bind Json.asI64) with
    | some cachedTok, some reasoningT =>
      some ⟨inputTokens, cachedTok, outputTokens, reasoningT, totalTokens⟩
    | _, _ => none
  | _, _, _ => none

/-- `ResponseCompleted` (`responses.rs` lines 76-82): required `id`, optional
`usage`. -/
def parseResponseCompleted (v : Json) : Option (String × Option TokenUsage) :=
  match v.getStr "id" with
  | none => none
  | some id =>
    match v.get "usage" with
    | none => some (id, none)
    | some .null => some (id, none)
    | some u =>
      match parseCompletedUsage u with
      | some usage => some (id, some usage)
      | none => none

/-- One parsed frame of the Responses stream: the `SseEvent` struct
(`responses.rs` lines 121-130); `invalid` stands for a `data:` payload
`serde_json::from_str::<SseEvent>` rejects (the decoder skips it). -/
inductive RespFrame where
  | invalid
  | event (kind : String) (response : Option Json) (item : Option Json)
      (delta : Option String) (summaryIndex : Option Int) (contentIndex : Option Int)

/-- Decoder state of `process_sse`: `response_completed` and `response_error`. -/
structure RespState where
  responseCompleted : Option (String × Option TokenUsage)
  responseError : Option ApiError

/-- Whitespace per `char::is_whitespace` restricted to the ASCII range used by
the regex classes of the sources. -/
def isWsChar (c : Char) : Bool :=
  c == ' ' || c == '\t' || c == '\n' || c == '\r' || c == '\x0c' || c == '\x0b'

/-- `str::is_ascii_digit`. -/
def isDigitChar (c : Char) : Bool := '0' ≤ c && c ≤ '9'

/-- Value of a digit list as a natural number. -/
def digitsVal : List Char → Nat
  | [] => 0
  | c :: rest => (c.toNat - '0'.toNat) * 10 ^ rest.length + digitsVal rest

/-- Rational value of `intDigits ++ "." ++ fracDigits` (built with
`Rat.divInt` so that it evaluates by kernel reduction). -/
def decimalVal (intDigits fracDigits : List Char) : ℚ :=
  Rat.divInt
    (Int.ofNat (digitsVal intDigits * 10 ^ fracDigits.length + digitsVal fracDigits))
    (Int.ofNat (10 ^ fracDigits.length))

/-- Case-insensitive prefix test (`(?i)` literal matching). -/
def prefixCaseI : List Char → List Char → Bool
  | [], _ => true
  | _ :: _, [] => false
  | p :: ps, c :: cs => (p.toLower == c.toLower) && prefixCaseI ps cs

/-- One attempted match of the tail of `RATE_LIMIT_REGEX`
(`\s*(\d+(?:\.\d+)?)\s*(s|ms|seconds?)`, `responses.rs` line 497) at a fixed
position; ordered alternation makes the captured unit `"s"` or `"ms"`.
Returns the `Duration` computed by `try_parse_retry_after` lines 467-476:
`Duration::from_secs_f64` for `s`, `Duration::from_millis(value as u64)`
(truncation) for `ms`. -/
def matchRetryTail (l : List Char) : Option Duration :=
  let afterWs := l.dropWhile isWsChar
  let intDigits := afterWs.takeWhile isDigitChar
  if intDigits.isEmpty then none
  else
    let afterInt := afterWs.drop intDigits.length
    let fracDigits :=
      match afterInt with
      | '.' :: rest => (rest.takeWhile isDigitChar : List Char)
      | _ => []
    let afterNum :=
      if fracDigits.isEmpty then afterInt else afterInt.drop (fracDigits.length + 1)
    let value := decimalVal intDigits fracDigits
    let unitPos := afterNum.dropWhile isWsChar
    match unitPos with
    | c :: _ =>
      if c.toLower == 's' then some value
      else if prefixCaseI ['m', 's'] unitPos then
        some (Rat.divInt (value.num / (value.den : Int)) 1000)
      else none
    | [] => none

/-- Leftmost match of `RATE_LIMIT_REGEX` = `(?i)try again in` followed by
`matchRetryTail`; scanning advances one character on failure. -/
def findRetryAfter : List Char → Option Duration
  | [] => none
  | l@(_ :: rest) =>
    if prefixCaseI "try again in".data l then
      match matchRetryTail (l.drop 12) with
      | some d => some d
      | none => findRetryAfter rest
    else findRetryAfter rest

/-- `try_parse_retry_after` (`responses.rs` lines 455-479). -/
def try_parse_retry_after (err : SseError) : Option Duration :=
  if err.code ≠ some "rate_limit_exceeded" then none
  else
    match err.message with
    | some message => findRetryAfter message.data
    | none => none

/-- `is_context_window_error` (`responses.rs` lines 481-483). -/
def is_context_window_error (error : SseError) : Bool :=
  error.code == some "context_length_exceeded"

/-- `is_quota_exceeded_error` (`responses.rs` lines 485-487). -/
def is_quota_exceeded_error (error : SseError) : Bool :=
  error.code == some "insufficient_quota"

/-- `is_usage_not_included` (`responses.rs` lines 489-491). -/
def is_usage_not_included (error : SseError) : Bool :=
  error.code == some "usage_not_included"

/-- The error classification of the `response.failed` arm
(`responses.rs` lines 374-390). -/
def classifyFailedError (error : SseError) : ApiError :=
  if is_context_window_error error then .contextWindowExceeded
  else if is_quota_exceeded_error error then .quotaExceeded
  else if is_usage_not_included error then .usageNotIncluded
  else .retryable (error.message.getD "") (try_parse_retry_after error)

/-- Processing of one parsed frame by the loop body of `process_sse`
(`responses.rs` lines 215-451): emitted events plus updated state. -/
def respStep (st : RespState) : RespFrame → List OutEvent × RespState
  | .invalid => ([], st)
  | .event kind response item delta summaryIndex contentIndex =>
    match kind with
    | "response.output_item.done" =>
      match item with
      | none => ([], st)
      | some itemVal =>
        match parseResponseItem itemVal with
        | none => ([], st)
        | some it => ([.ok (.outputItemDone it)], st)
    | "response.output_text.delta" =>
      match delta with
      | some d => ([.ok (.outputTextDelta d)], st)
      | none => ([], st)
    | "response.reasoning_summary_text.delta" =>
      match delta, summaryIndex with
      | some d, some i => ([.ok (.reasoningSummaryDelta d i)], st)
      | _, _ => ([], st)
    | "response.reasoning_text.delta" =>
      match delta, contentIndex with
      | some d, some i => ([.ok (.reasoningContentDelta d i)], st)
      | _, _ => ([], st)
    | "response.created" =>
      match response with
      | some _ => ([.ok .created], st)
      | none => ([], st)
    | "response.failed" =>
      match response with
      | none => ([], st)
      | some respVal =>
        let st := { st with responseError := some (.stream "response.failed event received") }
        match respVal.get "error" with
        | none => ([], st)
        | some errVal =>
          match parseSseError errVal with
          | none => ([], st)
          | some error => ([], { st with responseError := some (classifyFailedError error) })
    | "response.completed" =>
      match response with
      | none => ([], st)
      | some respVal =>
        match parseResponseCompleted respVal with
        | some rc => ([], { st with responseCompleted := some rc })
        | none =>
          ([], { st with responseError := some (.stream "failed to parse ResponseCompleted") })
    | "response.output_item.added" =>
      match item with
      | none => ([], st)
      | some itemVal =>
        match parseResponseItem itemVal with
        | none => ([], st)
        | some it => ([.ok (.outputItemAdded it)], st)
    | "response.reasoning_summary_part.added" =>
      match summaryIndex with
      | some i => ([.ok (.reasoningSummaryPartAdded i)], st)
      | none => ([], st)
    | _ => ([], st)

/-- End-of-stream handling of `process_sse` (`responses.rs` lines 158-185):
emit `Completed` iff a `response.completed` frame was captured, otherwise the
recorded (or default) error. -/
def respFinish (st : RespState) : List OutEvent :=
  match st.responseCompleted with
  | some (id, usage) => [.ok (.completed id usage)]
  | none =>
    [.err (st.responseError.getD (.stream "stream closed before response.completed"))]

/-- The full loop of `process_sse` over an already-reframed event list. -/
def respRun (st : RespState) : List RespFrame → List OutEvent
  | [] => respFinish st
  | f :: rest =>
    let (evs, st') := respStep st f
    evs ++ respRun st' rest

/-- `process_sse` (`responses.rs` lines 132-453) on a finite stream of frames
(SSE reframing, transport errors and the idle timeout are outside the model:
the input is the frame sequence of a finite, error-free byte stream). -/
def process_sse (frames : List RespFrame) : List OutEvent :=
  respRun ⟨none, none⟩ frames

/-! ## Chat-Completions SSE decoder (`codex-api/src/sse/chat.rs`) -/

/-- `HashMap::insert` on a string-keyed map modelled as an association list
(replace if present, append otherwise; HashMap iteration order is abstracted
as insertion order). -/
def upsertSS (m : List (String × String)) (k v : String) : List (String × String) :=
  if (m.lookup k).isSome then m.map fun p => if p.1 == k then (k, v) else p
  else m ++ [(k, v)]

/-- `HashMap::entry(k).or_insert(v)` on a string-keyed map. -/
def insertIfAbsentSN (m : List (String × Nat)) (k : String) (v : Nat) :
    List (String × Nat) :=
  if (m.lookup k).isSome then m else m ++ [(k, v)]

/-- First index at which `pat` occurs as a contiguous sublist of `hay`
(`str::find` for literal patterns; positions count characters, which agrees
with the byte positions used by the Rust code at every slicing boundary the
code uses). -/
def findSub (hay pat : List Char) : Option Nat :=
  match hay with
  | [] => if pat.isEmpty then some 0 else none
  | _ :: rest =>
    if pat.isPrefixOf hay then some 0 else (findSub rest pat).map (· + 1)

/-- `str::contains` for literal patterns. -/
def containsSub (hay pat : List Char) : Bool := (findSub hay pat).isSome

/-- `str::trim` (whitespace restricted to the ASCII class; all modelled
payloads are in that range). -/
def trimChars (l : List Char) : List Char :=
  ((l.dropWhile isWsChar).reverse.dropWhile isWsChar).reverse

/-- The parsed XML tool call (`XmlToolCall`, `chat.rs` lines 26-30); the
parameter `HashMap` is modelled as an insertion-ordered association list. -/
structure XmlToolCall where
  functionName : String
  parameters : List (String × String)
deriving DecidableEq, Repr

/-- The `PARAM_RE.captures_iter` loop of `parse_xml_tool_call` (`chat.rs`
lines 66-73): repeatedly extract `<parameter=key>value</parameter>` (key
nonempty and `>`-free, value nonempty and lazily matched) and insert into the
map; scanning continues after each matched block. -/
def parseParamsAux (fuel : Nat) (l : List Char) (acc : List (String × String)) :
    List (String × String) :=
  match fuel with
  | 0 => acc
  | fuel + 1 =>
    match findSub l "<parameter=".data with
    | none => acc
    | some i =>
      let afterP := l.drop (i + 11)
      let keyChars := afterP.takeWhile (fun c => !(c == '>'))
      if keyChars.isEmpty || keyChars.length == afterP.length then acc
      else
        let afterKey := afterP.drop (keyChars.length + 1)
        match findSub afterKey "</parameter>".data with
        | none => acc
        | some j =>
          if j == 0 then acc
          else
            let value := afterKey.take j
            let rest := afterKey.drop (j + 12)
            parseParamsAux fuel rest
              (if (String.mk keyChars).isEmpty then acc
               else upsertSS acc (String.mk keyChars) (String.mk value))

/-- The scan loop with its iteration bound: every iteration removes at least
the matched `<parameter=`, the key, `>` and `</parameter>` (24 characters or
more) from the scanned suffix, so `l.length + 1` strictly bounds the number
of iterations of the `captures_iter` scan and the bound is never reached. -/
def parseParams (l : List Char) (acc : List (String × String)) :
    List (String × String) :=
  parseParamsAux (l.length + 1) l acc

/-- `parse_xml_tool_call` (`chat.rs` lines 34-79).  The three `regex_lite`
patterns are modelled by their structure on the leftmost occurrence: the
block content is the (lazily matched, hence first-closing-tag-delimited,
nonempty, trimmed) text between `<tool_call>` and `</tool_call>`, the
function name is the nonempty `>`-free text after `<function=`, and the
function content is the nonempty trimmed text before `</function>`. -/
def parse_xml_tool_call (text : List Char) : Option XmlToolCall :=
  match findSub text "<tool_call>".data with
  | none => none
  | some i =>
    let afterOpen := text.drop (i + 11)
    match findSub afterOpen "</tool_call>".data with
    | none => none
    | some j =>
      if j == 0 then none
      else
        let content := trimChars (afterOpen.take j)
        match findSub content "<function=".data with
        | none => none
        | some fi =>
          let afterFn := content.drop (fi + 10)
          let nameChars := afterFn.takeWhile (fun c => !(c == '>'))
          if nameChars.isEmpty || nameChars.length == afterFn.length then none
          else
            let afterName := afterFn.drop (nameChars.length + 1)
            match findSub afterName "</function>".data with
            | none => none
            | some k =>
              if k == 0 then none
              else
                let fnContent := trimChars (afterName.take k)
                some ⟨String.mk nameChars, parseParams fnContent []⟩

/-- `contains_xml_tool_call` (`chat.rs` lines 82-84). -/
def contains_xml_tool_call (text : List Char) : Bool :=
  containsSub text "<tool_call>".data && containsSub text "</tool_call>".data

/-- JSON string escaping as performed by `serde_json::to_string` on the
characters occurring in the modelled payloads. -/
def jsonEscapeChar (c : Char) : String :=
  if c == '"' then "\\\""
  else if c == '\\' then "\\\\"
  else if c == '\n' then "\\n"
  else if c == '\r' then "\\r"
  else if c == '\t' then "\\t"
  else String.singleton c

/-- JSON-escape a string. -/
def jsonEscape (s : String) : String :=
  s.data.foldl (fun acc c => acc ++ jsonEscapeChar c) ""

/-- `serde_json::to_string(&parameters)` for the parameter map (`chat.rs`
line 224), with `HashMap` iteration abstracted as insertion order. -/
def encodeParamsJson (ps : List (String × String)) : String :=
  "\x7b" ++
    String.intercalate ","
      (ps.map fun p => "\"" ++ jsonEscape p.1 ++ "\":\"" ++ jsonEscape p.2 ++ "\"") ++
    "\x7d"

/-- `ToolCallState` (`chat.rs` lines 151-158); `Default` is all-empty. -/
structure ToolCallState where
  id : Option String
  name : Option String
  arguments : String
  thoughtSignature : Option String
deriving DecidableEq, Repr

/-- `Option::get_or_insert`. -/
def getOrInsert {α : Type} (o : Option α) (v : α) : Option α :=
  match o with
  | some x => some x
  | none => some v

/-- `HashMap::insert`-or-replace on the `usize`-keyed tool-call slot map. -/
def insertTC (m : List (Nat × ToolCallState)) (k : Nat) (v : ToolCallState) :
    List (Nat × ToolCallState) :=
  if (m.lookup k).isSome then m.map fun p => if p.1 == k then (k, v) else p
  else m ++ [(k, v)]

/-- `HashMap::remove` on the slot map. -/
def eraseTC (m : List (Nat × ToolCallState)) (k : Nat) : List (Nat × ToolCallState) :=
  m.filter fun p => !(p.1 == k)

def nextFreeIndexAux (fuel : Nat) (m : List (Nat × ToolCallState)) (n : Nat) : Nat :=
  match fuel with
  | 0 => n
  | fuel + 1 => if (m.lookup n).isSome then nextFreeIndexAux fuel m (n + 1) else n

/-- The `while tool_calls.contains_key(&next_tool_call_index)` advance of the
fresh-slot allocation (`chat.rs` lines 542-549), with its iteration bound:
the probed indices are pairwise distinct and every colliding probe consumes a
distinct key of the map, so the loop performs at most `m.length` collisions
and `m.length + 1` probes; the bound is never reached. -/
def nextFreeIndex (m : List (Nat × ToolCallState)) (n : Nat) : Nat :=
  nextFreeIndexAux (m.length + 1) m n

/-- Decoder state of `process_chat_sse` (`chat.rs` lines 160-177). -/
structure ChatState where
  toolCalls : List (Nat × ToolCallState)
  toolCallOrder : List Nat
  toolCallOrderSeen : List Nat
  toolCallIndexById : List (String × Nat)
  reasoningDetailsById : List (String × String)
  nextToolCallIndex : Nat
  lastToolCallIndex : Option Nat
  assistantItem : Option ResponseItem
  reasoningItem : Option ResponseItem
  accumulatedUsage : Option TokenUsage
  xmlBuffer : List Char
  pendingXmlToolCalls : List XmlToolCall
  xmlToolCallCounter : Nat

/-- The initial decoder state. -/
def initChatState : ChatState :=
  ⟨[], [], [], [], [], 0, none, none, none, none, [], [], 0⟩

/-- `parse_usage_from_chunk` (`chat.rs` lines 88-127). -/
def parse_usage_from_chunk (chunk : Json) : Option TokenUsage :=
  match chunk.get "usage" with
  | none => none
  | some usage =>
    let inputTokens := usage.getI64D "prompt_tokens" 0
    let outputTokens := usage.getI64D "completion_tokens" 0
    let totalTokens :=
      ((usage.get "total_tokens").bind Json.asI64).getD (inputTokens + outputTokens)
    let cachedInputTokens :=
      (((usage.get "prompt_tokens_details").bind (Json.get · "cached_tokens")).bind
        Json.asI64).getD 0
    let reasoningOutputTokens :=
      (((usage.get "completion_tokens_details").bind (Json.get · "reasoning_tokens")).bind
        Json.asI64).getD 0
    some ⟨inputTokens, cachedInputTokens, outputTokens, reasoningOutputTokens, totalTokens⟩

/-- `append_reasoning_text` (`chat.rs` lines 838-869). -/
def append_reasoning_text (reasoningItem : Option ResponseItem) (text : String) :
    Option ResponseItem × List OutEvent :=
  let (reasoningItem, evs0) :=
    match reasoningItem with
    | none =>
      let item := ResponseItem.reasoning "" []
        (some [ReasoningItemContent.reasoningText ""]) none
      (some item, [OutEvent.ok (.outputItemAdded item)])
    | some r => (some r, ([] : List OutEvent))
  match reasoningItem with
  | some (.reasoning id summary (some (.reasoningText acc :: restContent)) enc) =>
    (some (.reasoning id summary (some (.reasoningText (acc ++ text) :: restContent)) enc),
      evs0 ++ [OutEvent.ok (.reasoningContentDelta text 0)])
  | other => (other, evs0)

/-- The shared "ensure an open assistant message, push text, emit the delta"
step of `append_assistant_text` (`chat.rs` lines 788-803 and 818-834). -/
def pushAssistantText (assistantItem : Option ResponseItem) (text : String) :
    Option ResponseItem × List OutEvent :=
  let (assistantItem, evs0) :=
    match assistantItem with
    | none =>
      let item := ResponseItem.message none "assistant" []
      (some item, [OutEvent.ok (.outputItemAdded item)])
    | some a => (some a, ([] : List OutEvent))
  match assistantItem with
  | some (.message id role content) =>
    (some (.message id role (content ++ [ContentItem.outputText text])),
      evs0 ++ [OutEvent.ok (.outputTextDelta text)])
  | other => (other, evs0)

def xmlScanLoopAux (fuel : Nat) (buffer : List Char) (pending : List XmlToolCall)
    (assistant : Option ResponseItem) :
    List Char × List XmlToolCall × Option ResponseItem × List OutEvent :=
  match fuel with
  | 0 => (buffer, pending, assistant, [])
  | fuel + 1 =>
    if contains_xml_tool_call buffer then
      match parse_xml_tool_call buffer with
      | some toolCall =>
        let pending' := pending ++ [toolCall]
        match findSub buffer "</tool_call>".data with
        | some endPos =>
          let removeEnd := endPos + 12
          match findSub buffer "<tool_call>".data with
          | some startPos =>
            let before := buffer.take startPos
            if !(trimChars before).isEmpty then
              let (assistant', evs) := pushAssistantText assistant (String.mk before)
              let (b', p', a', evs') :=
                xmlScanLoopAux fuel (buffer.drop removeEnd) pending' assistant'
              (b', p', a', evs ++ evs')
            else xmlScanLoopAux fuel (buffer.drop removeEnd) pending' assistant
          | none => xmlScanLoopAux fuel (buffer.drop removeEnd) pending' assistant
        | none => (buffer, pending', assistant, [])
      | none => (buffer, pending, assistant, [])
    else (buffer, pending, assistant, [])

/-- The `while contains_xml_tool_call(..)` loop of `append_assistant_text`
(`chat.rs` lines 772-814), with its iteration bound: every iteration removes
a prefix through a `</tool_call>` occurrence (at least 12 characters) from
the buffer, so `buffer.length + 1` strictly bounds the number of iterations
and the bound is never reached. -/
def xmlScanLoop (buffer : List Char) (pending : List XmlToolCall)
    (assistant : Option ResponseItem) :
    List Char × List XmlToolCall × Option ResponseItem × List OutEvent :=
  xmlScanLoopAux (buffer.length + 1) buffer pending assistant

/-- `append_assistant_text` (`chat.rs` lines 761-836): accumulate the text in
the XML scan buffer, extract complete `<tool_call>` blocks, then flush the
buffer as plain assistant text when no open `<tool_call>` tag remains. -/
def append_assistant_text (buffer : List Char) (pending : List XmlToolCall)
    (assistant : Option ResponseItem) (text : String) :
    List Char × List XmlToolCall × Option ResponseItem × List OutEvent :=
  let buffer := buffer ++ text.data
  let (buffer, pending, assistant, evs) := xmlScanLoop buffer pending assistant
  if !(containsSub buffer "<tool_call>".data) then
    if !buffer.isEmpty then
      let (assistant, evs2) := pushAssistantText assistant (String.mk buffer)
      ([], pending, assistant, evs ++ evs2)
    else ([], pending, assistant, evs)
  else (buffer, pending, assistant, evs)

/-- Slot resolution for one streamed tool-call fragment (`chat.rs` lines
525-549): the `index` field, else the slot previously registered for the
fragment's `id`, else (when both are absent) the most recent slot, else a
freshly allocated index; returns the slot and the updated
`next_tool_call_index`. -/
def resolveFragmentSlot (st : ChatState) (toolCall : Json) : Nat × Nat :=
  let index0 : Option Nat := (toolCall.get "index").bind Json.asU64
  let callIdForLookup : Option String := toolCall.getStr "id"
  let index1 : Option Nat :=
    match toolCall.getStr "id" with
    | some callId =>
      match st.toolCallIndexById.lookup callId with
      | some existing => some existing
      | none => index0
    | none => index0
  let index2 : Option Nat :=
    if index1.isNone && callIdForLookup.isNone then st.lastToolCallIndex else index1
  match index2 with
  | some i => (i, st.nextToolCallIndex)
  | none =>
    let free := nextFreeIndex st.toolCalls st.nextToolCallIndex
    (free, free + 1)

/-- The `function`-level merge of one fragment (`chat.rs` lines 561-576):
`name` is `get_or_insert` of the first nonempty name, `arguments` is appended
as a string, `thought_signature` is `get_or_insert`. -/
def applyFunctionField (cs : ToolCallState) (func : Json) : ToolCallState :=
  let cs :=
    match func.getStr "name" with
    | some fname =>
      if fname ≠ "" then { cs with name := getOrInsert cs.name fname } else cs
    | none => cs
  let cs :=
    match func.getStr "arguments" with
    | some arguments => { cs with arguments := cs.arguments ++ arguments }
    | none => cs
  match func.getStr "thought_signature" with
  | some sig => { cs with thoughtSignature := getOrInsert cs.thoughtSignature sig }
  | none => cs

/-- The `thought_signature` fallback chain of one fragment (`chat.rs` lines
578-619): tool-call level, delta level, choice-level `reasoning_details`,
message level — first non-null wins. -/
def applySigFallbacks (cs : ToolCallState) (choice delta toolCall : Json) :
    ToolCallState :=
  let cs :=
    match toolCall.getStr "thought_signature" with
    | some sig => { cs with thoughtSignature := getOrInsert cs.thoughtSignature sig }
    | none => cs
  let cs :=
    if cs.thoughtSignature.isNone then
      match delta.getStr "thought_signature" with
      | some sig => { cs with thoughtSignature := some sig }
      | none => cs
    else cs
  let cs :=
    if cs.thoughtSignature.isNone then
      match choice.get "reasoning_details" with
      | some rd =>
        let cs' :=
          match rd.getStr "thought_signature" with
          | some sig => { cs with thoughtSignature := some sig }
          | none => cs
        if cs'.thoughtSignature.isNone then
          match rd.asStr with
          | some sig => { cs' with thoughtSignature := some sig }
          | none => cs'
        else cs'
      | none => cs
    else cs
  if cs.thoughtSignature.isNone then
    match (choice.get "message").bind (Json.getStr · "thought_signature") with
    | some sig => { cs with thoughtSignature := some sig }
    | none => cs
  else cs

/-- The full state merge of one fragment into its slot (`chat.rs` lines
556-619): `id` is `get_or_insert`, then the `function` fields, then the
thought-signature fallback chain. -/
def mergeFragment (cs : ToolCallState) (choice delta toolCall : Json) :
    ToolCallState :=
  let cs :=
    match toolCall.getStr "id" with
    | some id => { cs with id := getOrInsert cs.id id }
    | none => cs
  let cs :=
    match toolCall.get "function" with
    | some func => applyFunctionField cs func
    | none => cs
  applySigFallbacks cs choice delta toolCall

/-- One streamed tool-call fragment (`chat.rs` lines 524-622): slot
resolution, order bookkeeping, the id-to-slot registration, and the state
merge.  No events are emitted. -/
def processToolCallFragment (st : ChatState) (choice delta toolCall : Json) :
    ChatState :=
  let (index, nextIdx) := resolveFragmentSlot st toolCall
  let callState := (st.toolCalls.lookup index).getD ⟨none, none, "", none⟩
  let (order, seen) :=
    if st.toolCallOrderSeen.contains index then (st.toolCallOrder, st.toolCallOrderSeen)
    else (st.toolCallOrder ++ [index], st.toolCallOrderSeen ++ [index])
  let indexById :=
    match toolCall.getStr "id" with
    | some id => insertIfAbsentSN st.toolCallIndexById id index
    | none => st.toolCallIndexById
  let callState := mergeFragment callState choice delta toolCall
  { st with
      toolCalls := insertTC st.toolCalls index callState
      toolCallOrder := order
      toolCallOrderSeen := seen
      toolCallIndexById := indexById
      nextToolCallIndex := nextIdx
      lastToolCallIndex := some index }

/-- One `reasoning_details` array element (`chat.rs` lines 416-455): extract
an id (`id` or `tool_call_id`) and the first of `data` /
`thought_signature` / `signature`, and store it in the id-keyed map. -/
def applyReasoningDetail (m : List (String × String)) (detail : Json) :
    List (String × String) :=
  match (detail.getStr "id").or (detail.getStr "tool_call_id") with
  | some id =>
    match detail.getStr "data" with
    | some data => upsertSS m id data
    | none =>
      match detail.getStr "thought_signature" with
      | some sig => upsertSS m id sig
      | none =>
        match detail.getStr "signature" with
        | some sig => upsertSS m id sig
        | none => m
  | none => m

/-- The `reasoning_details` pre-pass over one choice (`chat.rs` lines
404-458): process the choice-level and the delta-level arrays. -/
def applyReasoningDetails (st : ChatState) (choice : Json) : ChatState :=
  let sources : List (Option Json) :=
    [choice.get "reasoning_details", (choice.get "delta").bind (Json.get · "reasoning_details")]
  let m := sources.foldl
    (fun m src =>
      match src with
      | some s =>
        match s.asArr with
        | some details => details.foldl applyReasoningDetail m
        | none => m
      | none => m)
    st.reasoningDetailsById
  { st with reasoningDetailsById := m }

/-- The shared handling of a `reasoning` field that may be a string, an
object with `text` or string `content`, or an object with a `content` array
of `reasoning_text` entries (`chat.rs` lines 465-484 and 626-647). -/
def applyReasoningField (reasoningItem : Option ResponseItem) (reasoning : Json) :
    Option ResponseItem × List OutEvent :=
  match reasoning.asStr with
  | some text => append_reasoning_text reasoningItem text
  | none =>
    match reasoning.getStr "text" with
    | some text => append_reasoning_text reasoningItem text
    | none =>
      match reasoning.getStr "content" with
      | some text => append_reasoning_text reasoningItem text
      | none =>
        match (reasoning.get "content").bind Json.asArr with
        | some contentArray =>
          contentArray.foldl
            (fun (acc : Option ResponseItem × List OutEvent) item =>
              match item.getStr "type", item.getStr "text" with
              | some "reasoning_text", some text =>
                if !(trimChars text.data).isEmpty then
                  let (ri, evs) := append_reasoning_text acc.1 text
                  (ri, acc.2 ++ evs)
                else acc
              | _, _ => acc)
            (reasoningItem, [])
        | none => (reasoningItem, [])

/-- `append_assistant_text` lifted to the decoder state. -/
def runAppendAssistant (st : ChatState) (text : String) : List OutEvent × ChatState :=
  let (buffer, pending, assistant, evs) :=
    append_assistant_text st.xmlBuffer st.pendingXmlToolCalls st.assistantItem text
  (evs,
    { st with xmlBuffer := buffer, pendingXmlToolCalls := pending, assistantItem := assistant })

/-- The `delta.content` handling (`chat.rs` lines 493-516): array-of-`text`
elements or a plain string. -/
def applyContentField (st : ChatState) (content : Json) : List OutEvent × ChatState :=
  match content with
  | .arr items =>
    items.foldl
      (fun (acc : List OutEvent × ChatState) item =>
        match item.getStr "text" with
        | some text =>
          let (evs, st') := runAppendAssistant acc.2 text
          (acc.1 ++ evs, st')
        | none => acc)
      ([], st)
  | _ =>
    match content.asStr with
    | some text => runAppendAssistant st text
    | none => ([], st)

/-- The `delta` handling of one choice (`chat.rs` lines 460-624):
`reasoning`, then `reasoning_content`, then `content`, then `tool_calls`. -/
def processDelta (st : ChatState) (choice delta : Json) : List OutEvent × ChatState :=
  let (evsA, st) :=
    match delta.get "reasoning" with
    | some reasoning =>
      let (ri, evs) := applyReasoningField st.reasoningItem reasoning
      (evs, { st with reasoningItem := ri })
    | none => ([], st)
  let (evsB, st) :=
    match delta.getStr "reasoning_content" with
    | some text =>
      if !(trimChars text.data).isEmpty then
        let (ri, evs) := append_reasoning_text st.reasoningItem text
        (evs, { st with reasoningItem := ri })
      else ([], st)
    | none => ([], st)
  let (evsC, st) :=
    match delta.get "content" with
    | some content => applyContentField st content
    | none => ([], st)
  let st :=
    match (delta.get "tool_calls").bind Json.asArr with
    | some toolCallValues =>
      toolCallValues.foldl (fun st tc => processToolCallFragment st choice delta tc) st
    | none => st
  (evsA ++ evsB ++ evsC, st)

/-- The pending-XML-tool-call drain (`chat.rs` lines 219-241, 284-306,
666-688): one synthetic `FunctionCall` per parsed block, with
`call_id = "xml-tool-call-<counter>"` counting from `counter + 1` and
`arguments` the JSON encoding of the parameter map. -/
def flushXmlEvents (counter : Nat) : List XmlToolCall → List OutEvent
  | [] => []
  | toolCall :: rest =>
    OutEvent.ok (.outputItemDone (.functionCall none toolCall.functionName
        (encodeParamsJson toolCall.parameters)
        ("xml-tool-call-" ++ toString (counter + 1)) none)) ::
      flushXmlEvents (counter + 1) rest

/-- The terminal flush shared by the end-of-stream, `[DONE]` and terminal
`finish_reason` paths (`chat.rs` lines 211-257, 278-319, 655-704): close the
open reasoning item, drain the pending XML tool calls, close the open
assistant message, and emit `Completed` (the `completed_sent` flag of the
source is the constant `false`, so the `Completed` send is unconditional). -/
def flushEndEvents (st : ChatState) : List OutEvent :=
  (match st.reasoningItem with
   | some r => [OutEvent.ok (.outputItemDone r)]
   | none => []) ++
  flushXmlEvents st.xmlToolCallCounter st.pendingXmlToolCalls ++
  (match st.assistantItem with
   | some a => [OutEvent.ok (.outputItemDone a)]
   | none => []) ++
  [OutEvent.ok (.completed "" st.accumulatedUsage)]

/-- The slot-draining loop of the `finish_reason == "tool_calls"` branch
(`chat.rs` lines 711-755): for each slot in insertion order, remove it from
the map and the seen-set, skip it if no name was ever recorded, otherwise
emit a `FunctionCall` with `call_id = id.unwrap_or("tool-call-<index>")` and
the `reasoning_details` fallback for a missing thought signature. -/
def finalizeLoop (order : List Nat) (m : List (Nat × ToolCallState))
    (seen : List Nat) (rd : List (String × String)) :
    List OutEvent × List (Nat × ToolCallState) × List Nat :=
  match order with
  | [] => ([], m, seen)
  | idx :: rest =>
    match m.lookup idx with
    | none => finalizeLoop rest m seen rd
    | some state =>
      let m' := eraseTC m idx
      let seen' := seen.filter fun k => !(k == idx)
      match state.name with
      | none => finalizeLoop rest m' seen' rd
      | some name =>
        let callId := state.id.getD ("tool-call-" ++ toString idx)
        let sig :=
          match state.thoughtSignature with
          | some s => some s
          | none => rd.lookup callId
        let (evs, m'', seen'') := finalizeLoop rest m' seen' rd
        (OutEvent.ok (.outputItemDone (.functionCall none name state.arguments callId sig)) ::
          evs, m'', seen'')

/-- The `finish_reason == "tool_calls"` branch (`chat.rs` lines 706-756):
flush the open reasoning item, then drain the slots. -/
def finishToolCallsBranch (st : ChatState) : List OutEvent × ChatState :=
  let (evsR, ri) :=
    match st.reasoningItem with
    | some r => ([OutEvent.ok (.outputItemDone r)], (none : Option ResponseItem))
    | none => ([], none)
  let (evs, m', seen') :=
    finalizeLoop st.toolCallOrder st.toolCalls st.toolCallOrderSeen st.reasoningDetailsById
  (evsR ++ evs,
    { st with
        reasoningItem := ri
        toolCallOrder := []
        toolCalls := m'
        toolCallOrderSeen := seen' })

/-- The terminal finish reasons (`chat.rs` line 655). -/
def stopFinishReasons : List String := ["stop", "normal", "end_turn", "length"]

/-- Processing of one element of `choices` (`chat.rs` lines 392-757);
`none` as second component means the whole decoder returned. -/
def processChoice (st : ChatState) (choice : Json) : List OutEvent × Option ChatState :=
  let st := applyReasoningDetails st choice
  let (evs1, st) :=
    match choice.get "delta" with
    | some delta => processDelta st choice delta
    | none => ([], st)
  let (evs2, st) :=
    match (choice.get "message").bind (Json.get · "reasoning") with
    | some reasoning =>
      let (ri, evs) := applyReasoningField st.reasoningItem reasoning
      (evs, { st with reasoningItem := ri })
    | none => ([], st)
  match choice.getStr "finish_reason" with
  | some fr =>
    if stopFinishReasons.contains fr then (evs1 ++ evs2 ++ flushEndEvents st, none)
    else if fr == "tool_calls" then
      let (evs3, st') := finishToolCallsBranch st
      (evs1 ++ evs2 ++ evs3, some st')
    else (evs1 ++ evs2, some st)
  | none => (evs1 ++ evs2, some st)

/-- The `for choice in choices` loop with the early return of the terminal
`finish_reason` branch. -/
def processChoices (st : ChatState) : List Json → List OutEvent × Option ChatState
  | [] => ([], some st)
  | c :: rest =>
    match processChoice st c with
    | (evs, none) => (evs, none)
    | (evs, some st') =>
      let (evs2, r) := processChoices st' rest
      (evs ++ evs2, r)

/-- One frame of the Chat stream: the `[DONE]` marker, a skipped frame
(whitespace-only payload or a payload `serde_json::from_str` rejects), or a
parsed JSON payload. -/
inductive ChatFrame where
  | doneMarker
  | skip
  | json (v : Json)

/-- The loop body of `process_chat_sse` for one frame (`chat.rs` lines
269-757): usage capture, the `[DONE]` flush, the non-standard whole-item
frames (`type: reasoning` / `type: message`), then the choices. -/
def chatStep (st : ChatState) : ChatFrame → List OutEvent × Option ChatState
  | .skip => ([], some st)
  | .doneMarker => (flushEndEvents st, none)
  | .json v =>
    let st :=
      match parse_usage_from_chunk v with
      | some usage => { st with accumulatedUsage := some usage }
      | none => st
    let nonstd : Option (List OutEvent) :=
      match v.getStr "type" with
      | some "reasoning" =>
        (parseResponseItem v).map fun item =>
          [OutEvent.ok (.outputItemDone item), OutEvent.ok (.completed "" st.accumulatedUsage)]
      | some "message" =>
        (parseResponseItem v).map fun item =>
          [OutEvent.ok (.outputItemDone item), OutEvent.ok (.completed "" st.accumulatedUsage)]
      | _ => none
    match nonstd with
    | some evs => (evs, none)
    | none =>
      match (v.get "choices").bind Json.asArr with
      | none => ([], some st)
      | some choices => processChoices st choices

/-- The main loop of `process_chat_sse` over a finite frame list; the end of
the list is the `Ok(None)` end-of-stream arm (`chat.rs` lines 206-257). -/
def chatRun (st : ChatState) : List ChatFrame → List OutEvent
  | [] => flushEndEvents st
  | f :: rest =>
    match chatStep st f with
    | (evs, none) => evs
    | (evs, some st') => evs ++ chatRun st' rest

/-- `process_chat_sse` (`chat.rs` lines 141-759) on a finite stream of frames
(SSE reframing, transport errors and the idle timeout are outside the model:
the input is the frame sequence of a finite, error-free byte stream). -/
def process_chat_sse (frames : List ChatFrame) : List OutEvent :=
  chatRun initChatState frames

/-! ## Chat wire adapter (`codex-api/src/requests/chat.rs`) -/

/-- One element of an array-form `content` value. -/
inductive ContentPart where
  | textPart (text : String)
  | imagePart (url : String)
deriving DecidableEq, Repr

/-- The `content` value of an assembled chat message: `null`, a plain string,
or the array form. -/
inductive ChatContentVal where
  | nullContent
  | strContent (s : String)
  | arrContent (parts : List ContentPart)
deriving DecidableEq, Repr

/-- One `tool_calls` entry as assembled by `ChatRequestBuilder::build`
(`chat.rs` lines 263-286 and 396-407).  The source embeds
`serde_json::from_str(arguments).unwrap_or(json!(arguments))` as the
`arguments` value; that value-preserving re-encoding of the same argument
data is abstracted by keeping the raw string. -/
structure ChatToolCallEntry where
  id : Option String
  ctype : String
  name : String
  arguments : String
  thoughtSignature : Option String
deriving DecidableEq, Repr

/-- One assembled chat message.  `reasoningDetails` holds the `(id, data)` of
the single `reasoning.encrypted` entry the source may attach (type and
format fields are the constants `"reasoning.encrypted"` /
`"google-gemini-v1"`). -/
structure ChatMessage where
  role : String
  content : ChatContentVal
  toolCalls : List ChatToolCallEntry
  toolCallId : Option String
  reasoning : Option String
  reasoningDetails : Option (String × String)
deriving DecidableEq, Repr

/-- `serde_json::to_string` of a Rust `String` value: the quoted escaped
JSON string. -/
def jsonStringLit (s : String) : String := "\"" ++ jsonEscape s ++ "\""

/-- `serde_json::to_string_pretty` of the parse-or-string `arguments` value
(`chat.rs` line 247), abstracted as the identity on the raw argument text
(a value-preserving re-encoding of the same JSON data). -/
def prettyPrintedArguments (arguments : String) : String := arguments

/-- The `call_ids_with_output` pre-scan (`chat.rs` lines 76-87): ids of all
`FunctionCallOutput` and `CustomToolCallOutput` items. -/
def callIdsWithOutput (input : List ResponseItem) : List String :=
  input.filterMap fun item =>
    match item with
    | .functionCallOutput callId _ => some callId
    | .customToolCallOutput callId _ => some callId
    | _ => none

/-- The `last_emitted_role` pre-scan (`chat.rs` lines 90-105). -/
def lastEmittedRole (input : List ResponseItem) : Option String :=
  input.foldl
    (fun acc item =>
      match item with
      | .message _ role _ => some role
      | .functionCall _ _ _ _ _ => some "assistant"
      | .localShellCall _ _ _ _ => some "assistant"
      | .functionCallOutput _ _ => some "tool"
      | _ => acc)
    none

/-- The `last_user_index` pre-scan (`chat.rs` lines 107-114). -/
def lastUserIndex (input : List ResponseItem) : Option Nat :=
  input.enum.foldl
    (fun acc p =>
      match p.2 with
      | .message _ role _ => if role == "user" then some p.1 else acc
      | _ => acc)
    none

/-- `entry(k).and_modify(push_str).or_insert(text)` on the anchor map. -/
def upsertAppendNS (m : List (Nat × String)) (k : Nat) (v : String) :
    List (Nat × String) :=
  match m.lookup k with
  | some old => m.map fun p => if p.1 == k then (k, old ++ v) else p
  | none => m ++ [(k, v)]

/-- The reasoning anchor resolution pre-pass (`chat.rs` lines 116-174):
skipped entirely when the last emitted role is `user`; otherwise each
`Reasoning` item after the last user message attaches its concatenated text
to the preceding assistant message, else to a following
`FunctionCall`/`LocalShellCall`/assistant message. -/
def reasoningByAnchorIndex (input : List ResponseItem) : List (Nat × String) :=
  if lastEmittedRole input == some "user" then []
  else
    input.enum.foldl
      (fun m p =>
        let idx := p.1
        if (match lastUserIndex input with
            | some uIdx => decide (idx ≤ uIdx)
            | none => false) then m
        else
          match p.2 with
          | .reasoning _ _ (some items) _ =>
            let text := items.foldl
              (fun acc entry =>
                match entry with
                | .reasoningText segment => acc ++ segment
                | .text segment => acc ++ segment)
              ""
            if (trimChars text.data).isEmpty then m
            else
              let prevIsAssistant :=
                decide (0 < idx) &&
                  (match input.get? (idx - 1) with
                   | some (.message _ role _) => role == "assistant"
                   | _ => false)
              if prevIsAssistant then upsertAppendNS m (idx - 1) text
              else if idx + 1 < input.length then
                match input.get? (idx + 1) with
                | some (.functionCall _ _ _ _ _) => upsertAppendNS m (idx + 1) text
                | some (.localShellCall _ _ _ _) => upsertAppendNS m (idx + 1) text
                | some (.message _ role _) =>
                  if role == "assistant" then upsertAppendNS m (idx + 1) text else m
                | _ => m
              else m
          | _ => m)
      []

/-- The plain-assistant-text fallback for a `FunctionCall` without a matching
output (`chat.rs` lines 244-249). -/
def functionCallFallbackText (name arguments callId : String) : String :=
  "[Tool Call: " ++ name ++ "]\nArguments: " ++ prettyPrintedArguments arguments ++
    "\nCall ID: " ++ callId ++ "\n(No output recorded)"

/-- The plain-assistant-text fallback for a `CustomToolCall` whose
`id.unwrap_or_default()` has no matching output (`chat.rs` lines 382-385). -/
def customToolCallFallbackText (name input callIdStr : String) : String :=
  "[Custom Tool Call: " ++ name ++ "]\nInput: " ++ jsonStringLit input ++
    "\nCall ID: " ++ callIdStr ++ "\n(No output recorded)"

/-- The per-item emission loop of `ChatRequestBuilder::build` (`chat.rs`
lines 176-426), threading the running item index and the
`last_assistant_text` deduplication state.  The `LocalShellCall` `{:?}`
status rendering and `to_string_pretty` action rendering are abstracted as
the embedded strings themselves. -/
def buildLoop (input : List ResponseItem) (outputIds : List String)
    (anchors : List (Nat × String)) (idx : Nat) (lastAssistant : Option String) :
    List ResponseItem → List ChatMessage
  | [] => []
  | item :: rest =>
    match item with
    | .message _ role content =>
      let text := content.foldl
        (fun acc c =>
          match c with
          | .inputText t => acc ++ t
          | .outputText t => acc ++ t
          | .inputImage _ => acc)
        ""
      let parts := content.map
        (fun c =>
          match c with
          | .inputText t => ContentPart.textPart t
          | .outputText t => ContentPart.textPart t
          | .inputImage url => ContentPart.imagePart url)
      let sawImage := content.any fun c =>
        match c with
        | .inputImage _ => true
        | _ => false
      if role == "assistant" && lastAssistant == some text then
        buildLoop input outputIds anchors (idx + 1) lastAssistant rest
      else
        let lastAssistant' := if role == "assistant" then some text else lastAssistant
        let contentVal :=
          if role == "assistant" then ChatContentVal.strContent text
          else if sawImage then ChatContentVal.arrContent parts
          else ChatContentVal.strContent text
        let reasoning :=
          if role == "assistant" then anchors.lookup idx else none
        ⟨role, contentVal, [], none, reasoning, none⟩ ::
          buildLoop input outputIds anchors (idx + 1) lastAssistant' rest
    | .functionCall _ name arguments callId thoughtSignature =>
      if !(outputIds.contains callId) then
        ⟨"assistant", .strContent (functionCallFallbackText name arguments callId),
            [], none, anchors.lookup idx, none⟩ ::
          buildLoop input outputIds anchors (idx + 1) lastAssistant rest
      else
        ⟨"assistant", .nullContent,
            [⟨some callId, "function", name, arguments, thoughtSignature⟩], none,
            anchors.lookup idx,
            thoughtSignature.map fun sig => (callId, sig)⟩ ::
          buildLoop input outputIds anchors (idx + 1) lastAssistant rest
    | .localShellCall id _ status action =>
      ⟨"assistant",
          .strContent ("[Local Shell Call]\nID: " ++ id.getD "" ++ "\nStatus: " ++
            status ++ "\nAction: " ++ action),
          [], none, anchors.lookup idx, none⟩ ::
        buildLoop input outputIds anchors (idx + 1) lastAssistant rest
    | .functionCallOutput callId output =>
      let contentVal :=
        match output.contentItems with
        | some items =>
          ChatContentVal.arrContent (items.map fun it =>
            match it with
            | .inputText text => ContentPart.textPart text
            | .inputImage url => ContentPart.imagePart url)
        | none => ChatContentVal.strContent output.content
      ⟨"tool", contentVal, [], some callId, none, none⟩ ::
        buildLoop input outputIds anchors (idx + 1) lastAssistant rest
    | .customToolCall id _ name inputStr _ =>
      let callIdStr := id.getD ""
      if !(outputIds.contains callIdStr) then
        ⟨"assistant", .strContent (customToolCallFallbackText name inputStr callIdStr),
            [], none, none, none⟩ ::
          buildLoop input outputIds anchors (idx + 1) lastAssistant rest
      else
        ⟨"assistant", .nullContent,
            [⟨id, "function", name, jsonStringLit inputStr, none⟩], none, none, none⟩ ::
          buildLoop input outputIds anchors (idx + 1) lastAssistant rest
    | .customToolCallOutput callId output =>
      ⟨"tool", .strContent output, [], some callId, none, none⟩ ::
        buildLoop input outputIds anchors (idx + 1) lastAssistant rest
    | _ => buildLoop input outputIds anchors (idx + 1) lastAssistant rest

/-- The `messages` assembly of `ChatRequestBuilder::build` (`chat.rs` lines
68-444): the system seed, the per-item emission, and the trailing
`"请继续"` user message when no user message is present.  (The payload and
header assembly that follows, lines 446-511, carries `messages` unchanged.) -/
def build_chat_messages (instructions : String) (input : List ResponseItem) :
    List ChatMessage :=
  let outputIds := callIdsWithOutput input
  let anchors := reasoningByAnchorIndex input
  let msgs :=
    ⟨"system", .strContent instructions, [], none, none, none⟩ ::
      buildLoop input outputIds anchors 0 none input
  if msgs.any (fun m => m.role == "user") then msgs
  else msgs ++ [⟨"user", .strContent "请继续", [], none, none, none⟩]

/-! ## Derived predicates and concrete scenario inputs -/

/-- Whether an `Except` result is `Ok`. -/
def exceptIsOk {ε α : Type} : Except ε α → Bool
  | .ok _ => true
  | .error _ => false

/-- Whether a mailbox element is a successful `Completed` event. -/
def isCompletedEv : OutEvent → Bool
  | .ok (.completed _ _) => true
  | _ => false

/-- No element of the list is a `Completed` event. -/
def completedFree (l : List OutEvent) : Bool :=
  l.all fun e => !isCompletedEv e

/-- Number of `Completed` events in a mailbox trace. -/
def completedCount (l : List OutEvent) : Nat :=
  l.countP isCompletedEv

/-- Whether a mailbox element is an open-message or text-delta event (the
only events assistant-text processing may emit). -/
def isTextStreamEv : OutEvent → Bool
  | .ok (.outputItemAdded _) => true
  | .ok (.outputTextDelta _) => true
  | _ => false

/-- A Responses frame that successfully records `response_completed`: kind
`response.completed` with a present, parseable `response` value. -/
def goodCompletedFrame : RespFrame → Bool
  | .event kind (some v) _ _ _ _ =>
    kind == "response.completed" && (parseResponseCompleted v).isSome
  | _ => false

/-- The part of `flushEndEvents` preceding the final `Completed`. -/
def flushEndPrefix (st : ChatState) : List OutEvent :=
  (match st.reasoningItem with
   | some r => [OutEvent.ok (.outputItemDone r)]
   | none => []) ++
  flushXmlEvents st.xmlToolCallCounter st.pendingXmlToolCalls ++
  (match st.assistantItem with
   | some a => [OutEvent.ok (.outputItemDone a)]
   | none => [])

/-- A Chat frame `{"choices":[{"finish_reason": fr}]}`. -/
def mkFinishFrame (fr : String) : Json :=
  .obj [("choices", .arr [.obj [("finish_reason", .str fr)]])]

/-- Scenario S1, frame 1: establish slot 0 with id `call_a` and name `do_a`. -/
def s1Frame1 : ChatFrame :=
  .json (.obj [("choices", .arr [.obj [("delta", .obj [("tool_calls", .arr
    [.obj [("id", .str "call_a"), ("index", .num 0),
      ("function", .obj [("name", .str "do_a")])]])])]])])

/-- Scenario S1, frame 2: arguments fragment for slot 0. -/
def s1Frame2 : ChatFrame :=
  .json (.obj [("choices", .arr [.obj [("delta", .obj [("tool_calls", .arr
    [.obj [("index", .num 0),
      ("function", .obj [("arguments", .str "\x7b \"foo\":")])]])])]])])

/-- Scenario S1, frame 3: second arguments fragment for slot 0. -/
def s1Frame3 : ChatFrame :=
  .json (.obj [("choices", .arr [.obj [("delta", .obj [("tool_calls", .arr
    [.obj [("index", .num 0),
      ("function", .obj [("arguments", .str "1\x7d")])]])])]])])

/-- A `finish_reason: tool_calls` frame. -/
def toolCallsFinishFrame : ChatFrame := .json (mkFinishFrame "tool_calls")

/-- A `finish_reason: stop` frame. -/
def stopFinishFrame : ChatFrame := .json (mkFinishFrame "stop")

/-- Scenario S2: the assistant-text delta carrying a complete XML tool-call
block. -/
def s2Frame1 : ChatFrame :=
  .json (.obj [("choices", .arr [.obj [("delta", .obj [("content", .str
    "<tool_call>\n<function=test_function>\n<parameter=arg1>value1</parameter>\n</function>\n</tool_call>")])]])])

/-- A fragment establishing slot 0 by `index` only (no provider id), with
name and arguments. -/
def c9IndexOnlyFrame : ChatFrame :=
  .json (.obj [("choices", .arr [.obj [("delta", .obj [("tool_calls", .arr
    [.obj [("index", .num 0),
      ("function", .obj [("name", .str "do_a"), ("arguments", .str "\x7b\x7d")])]])])]])])

/-- A fragment establishing slot 0 by `index` only, with arguments but no
name ever supplied. -/
def c9NoNameFrame : ChatFrame :=
  .json (.obj [("choices", .arr [.obj [("delta", .obj [("tool_calls", .arr
    [.obj [("index", .num 0),
      ("function", .obj [("arguments", .str "\x7b\x7d")])]])])]])])

/-- The tool-call fragment of the repo regression test
`drops_partial_tool_calls_on_stop_finish_reason`. -/
def c10ToolFrame : ChatFrame :=
  .json (.obj [("choices", .arr [.obj [("delta", .obj [("tool_calls", .arr
    [.obj [("id", .str "call_a"),
      ("function", .obj [("name", .str "do_a"), ("arguments", .str "\x7b\x7d")])]])])]])])

/-- A valid Responses `response.output_item.done` frame (assistant message
`Hello`), as in the repo test `error_when_missing_completed`. -/
def respItemDoneFrame : RespFrame :=
  .event "response.output_item.done" none
    (some (.obj [("type", .str "message"), ("role", .str "assistant"),
      ("content", .arr [.obj [("type", .str "output_text"), ("text", .str "Hello")]])]))
    none none none

/-- A valid `response.completed` frame with id `resp1`. -/
def respCompletedFrame : RespFrame :=
  .event "response.completed" (some (.obj [("id", .str "resp1")])) none none none none

/-- Scenario S3: a function call followed by a user message and no output. -/
def s3History : List ResponseItem :=
  [.functionCall none "do_it" "\x7b\x7d" "c1" none,
   .message none "user" [.inputText "hi"]]

/-- An `update_plan` argument with two `in_progress` steps (the JSON argument
text `{"plan":[{"step":"a","status":"in_progress"},{"step":"b","status":"in_progress"}]}`
parses to exactly this value). -/
def twoInProgressArgs : UpdatePlanArgs :=
  ⟨none, [⟨"a", .inProgress⟩, ⟨"b", .inProgress⟩]⟩

/-- The rate-limit message of the repo test `error_when_error_event`
(scenario S4). -/
def s4Message : String :=
  "Rate limit reached for gpt-5.1 in organization org-AAA on tokens per min (TPM): Limit 30000, Used 22999, Requested 12528. Please try again in 11.054s. Visit https://platform.openai.com/account/rate-limits to learn more."

/-- The S4 error body: code `rate_limit_exceeded` with the retry hint. -/
def s4Error : SseError :=
  ⟨none, some "rate_limit_exceeded", some s4Message, none, none⟩

/-- The S4 `response.failed` frame. -/
def s4FailedFrame : RespFrame :=
  .event "response.failed"
    (some (.obj [("id", .str "resp_689"), ("status", .str "failed"),
      ("error", .obj [("code", .str "rate_limit_exceeded"), ("message", .str s4Message)])]))
    none none none none

/-- `11.054` seconds. -/
def s4Delay : Duration := Rat.divInt 11054 1000

/-- A `CustomToolCall` (no provider `id`) paired by `call_id` with its
output: the spec's pairing key. -/
def c6CustomInput : List ResponseItem :=
  [.customToolCall none "c1" "mytool" "xyz" "completed",
   .customToolCallOutput "c1" "done"]

/-! # Theorems -/

/-- The success condition of `verify_signature`: both window checks pass and
the provided signature equals the expected digest. -/
theorem verify_isOk_iff (conv : String) (flag : Bool) (t sig now) :
    exceptIsOk (verify_signature conv flag t sig now) = true ↔
      now ≤ t + 300 ∧ t ≤ now + 60 ∧ sig = compute_signature conv flag t := by
  unfold verify_signature
  split
  · next h => simp [exceptIsOk, SIGNATURE_VALIDITY_SECONDS] at h ⊢; omega
  · next h1 =>
    split
    · next h2 => simp [exceptIsOk] at h2 ⊢; omega
    · next h2 =>
      split
      · next h3 =>
        simp only [constant_time_compare, beq_iff_eq] at h3
        simp only [SIGNATURE_VALIDITY_SECONDS, Nat.not_lt, Nat.not_gt_eq] at h1 h2
        simp [exceptIsOk]
        exact ⟨by omega, by omega, h3.symm⟩
      · next h3 =>
        simp only [constant_time_compare, beq_iff_eq] at h3
        simp [exceptIsOk]
        intro _ _ h
        exact absurd h.symm h3

/-- The MAC input message determines the conversation id (for a fixed flag
and timestamp). -/
theorem compute_signature_inj_conv (conv conv' : String) (flag : Bool) (t : Nat)
    (h : compute_signature conv' flag t = compute_signature conv flag t) :
    conv' = conv := by
  unfold compute_signature hmacSha256Hex at h
  have hdata := congrArg String.data h
  simp only [String.data_append] at hdata
  exact String.ext
    (List.append_cancel_right (List.append_cancel_right
      (List.append_cancel_right (List.append_cancel_right hdata))))

/-- The MAC input message determines the turn flag. -/
theorem compute_signature_inj_flag (conv : String) (flag flag' : Bool) (t : Nat)
    (hne : flag' ≠ flag) :
    compute_signature conv flag' t ≠ compute_signature conv flag t := by
  intro h
  have hlen := congrArg String.length h
  have h4 : ("user" : String).length = 4 := rfl
  have h6 : ("system" : String).length = 6 := rfl
  cases flag <;> cases flag' <;>
    simp [compute_signature, hmacSha256Hex, String.length_append, h4, h6] at hlen hne <;>
    omega

/-- C5: a signature produced by `TurnSignature::sign` at time `t` verifies at
time `now` whenever `|now − t| ≤ 60` and `t + 300 ≥ now`; verification fails
whenever the conversation id, the flag, or the signature string is changed,
and whenever the validity window is exceeded (`t` more than 300 seconds in
the past or more than 60 seconds in the future of `now`). -/
theorem c5_turn_signing (conv : String) (flag : Bool) (t now : Nat) :
    ((now ≤ t + 60 ∧ t ≤ now + 60) ∧ t + 300 ≥ now →
      verify_signature conv flag t (TurnSignature.sign conv flag t).signature now =
        .ok ()) ∧
    (∀ conv', conv' ≠ conv →
      exceptIsOk (verify_signature conv' flag t
        (TurnSignature.sign conv flag t).signature now) = false) ∧
    (∀ flag', flag' ≠ flag →
      exceptIsOk (verify_signature conv flag' t
        (TurnSignature.sign conv flag t).signature now) = false) ∧
    (∀ sig', sig' ≠ (TurnSignature.sign conv flag t).signature →
      exceptIsOk (verify_signature conv flag t sig' now) = false) ∧
    (∀ sig, now > t + 300 →
      exceptIsOk (verify_signature conv flag t sig now) = false) ∧
    (∀ sig, t > now + 60 →
      exceptIsOk (verify_signature conv flag t sig now) = false) := by
  have hsig : (TurnSignature.sign conv flag t).signature = compute_signature conv flag t := rfl
  refine ⟨?_, ?_, ?_, ?_, ?_, ?_⟩
  · rintro ⟨⟨h1, h2⟩, h3⟩
    unfold verify_signature
    rw [if_neg (by simp [SIGNATURE_VALIDITY_SECONDS]; omega), if_neg (by omega), if_pos]
    rw [hsig]
    simp [constant_time_compare]
  · intro conv' hne
    cases hok : exceptIsOk (verify_signature conv' flag t
        (TurnSignature.sign conv flag t).signature now) with
    | false => rfl
    | true =>
      have hiff := (verify_isOk_iff conv' flag t _ now).mp hok
      have heq : compute_signature conv' flag t = compute_signature conv flag t := by
        rw [← hiff.2.2, hsig]
      exact absurd (compute_signature_inj_conv conv conv' flag t heq) hne
  · intro flag' hne
    cases hok : exceptIsOk (verify_signature conv flag' t
        (TurnSignature.sign conv flag t).signature now) with
    | false => rfl
    | true =>
      have hiff := (verify_isOk_iff conv flag' t _ now).mp hok
      have heq : compute_signature conv flag' t = compute_signature conv flag t := by
        rw [← hiff.2.2, hsig]
      exact absurd heq (compute_signature_inj_flag conv flag flag' t hne)
  · intro sig' hne
    cases hok : exceptIsOk (verify_signature conv flag t sig' now) with
    | false => rfl
    | true =>
      have hiff := (verify_isOk_iff conv flag t sig' now).mp hok
      exact absurd (by rw [hiff.2.2, ← hsig]) hne
  · intro sig hwin
    cases hok : exceptIsOk (verify_signature conv flag t sig now) with
    | false => rfl
    | true =>
      have := (verify_isOk_iff conv flag t sig now).mp hok
      simp [SIGNATURE_VALIDITY_SECONDS] at this
      omega
  · intro sig hwin
    cases hok : exceptIsOk (verify_signature conv flag t sig now) with
    | false => rfl
    | true =>
      have := (verify_isOk_iff conv flag t sig now).mp hok
      omega

/-- Witness for `c5_turn_signing` at `conv = "conv-1"`, `flag = true`,
`t = now = 1000`. -/
theorem c5_turn_signing_witness :
    verify_signature "conv-1" true 1000
      (TurnSignature.sign "conv-1" true 1000).signature 1000 = .ok () ∧
    exceptIsOk (verify_signature "other" true 1000
      (TurnSignature.sign "conv-1" true 1000).signature 1000) = false := by
  refine ⟨(c5_turn_signing "conv-1" true 1000 1000).1 (by omega), ?_⟩
  exact (c5_turn_signing "conv-1" true 1000 1000).2.1 "other" (by decide)

/-- C4: the `update_plan` handler accepts and stores a plan with two
`in_progress` steps, returning the success reminder — it performs no
at-most-one-`in_progress` validation (evaluation of the code at the failing
input). -/
theorem c4_plan_code_eval :
    handle_update_plan twoInProgressArgs ⟨none⟩ =
      (⟨some twoInProgressArgs⟩,
        "Plan updated. 0 step(s) pending, 2 step(s) in progress. Continue executing the remaining steps.") ∧
    inProgressCount twoInProgressArgs = 2 := by
  constructor
  · rfl
  · rfl

set_option maxRecDepth 10000 in
/-- C8: a `response.failed` error with code `rate_limit_exceeded` maps to
`Retryable` with the optional delay parsed from a `try again in N(s|ms|seconds)`
message fragment — `11.054s` yields 11.054 seconds; `context_length_exceeded`
maps to `ContextWindowExceeded` and `insufficient_quota` to `QuotaExceeded`;
no delay is parsed for any other error code. -/
theorem c8_error_mapping :
    try_parse_retry_after s4Error = some s4Delay ∧
    classifyFailedError s4Error = .retryable s4Message (some s4Delay) ∧
    (∀ etype msg planType resetsAt,
      classifyFailedError ⟨etype, some "context_length_exceeded", msg, planType, resetsAt⟩ =
        .contextWindowExceeded) ∧
    (∀ etype msg planType resetsAt,
      classifyFailedError ⟨etype, some "insufficient_quota", msg, planType, resetsAt⟩ =
        .quotaExceeded) ∧
    (∀ e : SseError, e.code ≠ some "rate_limit_exceeded" → try_parse_retry_after e = none) ∧
    process_sse [s4FailedFrame] = [.err (.retryable s4Message (some s4Delay))] := by
  refine ⟨by decide, by decide, ?_, ?_, ?_, by decide⟩
  · intro etype msg planType resetsAt
    rfl
  · intro etype msg planType resetsAt
    rfl
  · intro e hne
    unfold try_parse_retry_after
    rw [if_pos hne]

/-- Witness for `c8_error_mapping`: no delay is parsed when the code is not
`rate_limit_exceeded`, at a concrete error body. -/
theorem c8_error_mapping_witness :
    try_parse_retry_after ⟨none, some "insufficient_quota", some "try again in 5s", none, none⟩ =
      none :=
  c8_error_mapping.2.2.2.2.1
    ⟨none, some "insufficient_quota", some "try again in 5s", none, none⟩ (by decide)

/-- C10: a terminal `finish_reason` of the stop family makes the decoder
flush exactly the open reasoning item, the pending XML-derived calls, the
open assistant message and the final `Completed` — a flush that does not read
the accumulated tool-call fragment slots — and return; on the regression
stream (a tool-call fragment followed by `finish_reason: stop`) no
`FunctionCall` item is emitted at all. -/
theorem c10_stop_discards_fragments :
    (∀ (st : ChatState) (fr : String), stopFinishReasons.contains fr = true →
      chatStep st (.json (mkFinishFrame fr)) = (flushEndEvents st, none)) ∧
    (∀ (st : ChatState) (tc : List (Nat × ToolCallState)) (ord seen : List Nat)
        (byId : List (String × Nat)) (nextIdx : Nat) (lastIdx : Option Nat),
      flushEndEvents
        { st with
            toolCalls := tc
            toolCallOrder := ord
            toolCallOrderSeen := seen
            toolCallIndexById := byId
            nextToolCallIndex := nextIdx
            lastToolCallIndex := lastIdx } = flushEndEvents st) ∧
    process_chat_sse [c10ToolFrame, stopFinishFrame] = [.ok (.completed "" none)] := by
  refine ⟨?_, ?_, by decide⟩
  · intro st fr h
    have hm : fr = "stop" ∨ fr = "normal" ∨ fr = "end_turn" ∨ fr = "length" := by
      simp [stopFinishReasons, List.contains, List.elem_eq_mem] at h
      tauto
    rcases hm with rfl | rfl | rfl | rfl <;> rfl
  · intro st tc ord seen byId nextIdx lastIdx
    rfl

/-- Witness for `c10_stop_discards_fragments` at the initial state and
`finish_reason = "stop"`. -/
theorem c10_stop_discards_fragments_witness :
    chatStep initChatState (.json (mkFinishFrame "stop")) =
      (flushEndEvents initChatState, none) :=
  c10_stop_discards_fragments.1 initChatState "stop" (by decide)

/-- C9: finalizing a named slot whose fragments never carried a provider id
synthesizes `call_id = "tool-call-<index>"`; a slot with no recorded name is
skipped and produces no item; end-to-end on index-only streams. -/
theorem c9_synthesized_call_id :
    (∀ (idx : Nat) (rest : List Nat) (m : List (Nat × ToolCallState))
        (seen : List Nat) (rd : List (String × String)) (s : ToolCallState)
        (name : String),
      m.lookup idx = some s → s.id = none → s.name = some name →
      (finalizeLoop (idx :: rest) m seen rd).1 =
        OutEvent.ok (.outputItemDone (.functionCall none name s.arguments
          ("tool-call-" ++ toString idx)
          (match s.thoughtSignature with
           | some x => some x
           | none => rd.lookup ("tool-call-" ++ toString idx)))) ::
          (finalizeLoop rest (eraseTC m idx) (seen.filter fun k => !(k == idx)) rd).1) ∧
    (∀ (idx : Nat) (rest : List Nat) (m : List (Nat × ToolCallState))
        (seen : List Nat) (rd : List (String × String)) (s : ToolCallState),
      m.lookup idx = some s → s.name = none →
      (finalizeLoop (idx :: rest) m seen rd).1 =
        (finalizeLoop rest (eraseTC m idx) (seen.filter fun k => !(k == idx)) rd).1) ∧
    process_chat_sse [c9IndexOnlyFrame, toolCallsFinishFrame] =
      [.ok (.outputItemDone (.functionCall none "do_a" "\x7b\x7d" "tool-call-0" none)),
       .ok (.completed "" none)] ∧
    process_chat_sse [c9NoNameFrame, toolCallsFinishFrame] = [.ok (.completed "" none)] := by
  refine ⟨?_, ?_, by decide, by decide⟩
  · intro idx rest m seen rd s name hlk hid hname
    simp [finalizeLoop, hlk, hid, hname]
  · intro idx rest m seen rd s hlk hname
    simp [finalizeLoop, hlk, hname]

/-- Witness for `c9_synthesized_call_id` at a concrete one-slot state. -/
theorem c9_synthesized_call_id_witness :
    (finalizeLoop [0] [(0, ⟨none, some "f", "a", none⟩)] [0] []).1 =
      OutEvent.ok (.outputItemDone (.functionCall none "f" "a" "tool-call-0" none)) ::
        (finalizeLoop [] (eraseTC [(0, ⟨none, some "f", "a", none⟩)] 0)
          ([0].filter fun k => !(k == 0)) []).1 :=
  c9_synthesized_call_id.1 0 [] [(0, ⟨none, some "f", "a", none⟩)] [0] []
    ⟨none, some "f", "a", none⟩ "f" rfl rfl rfl

/-- The thought-signature fallback chain never touches the slot's name. -/
theorem applySigFallbacks_name (cs : ToolCallState) (choice delta toolCall : Json) :
    (applySigFallbacks cs choice delta toolCall).name = cs.name := by
  unfold applySigFallbacks
  repeat' split
  all_goals try rfl
  all_goals simp only []
  repeat' split
  all_goals rfl

/-- The thought-signature fallback chain never touches the slot's arguments. -/
theorem applySigFallbacks_arguments (cs : ToolCallState) (choice delta toolCall : Json) :
    (applySigFallbacks cs choice delta toolCall).arguments = cs.arguments := by
  unfold applySigFallbacks
  repeat' split
  all_goals try rfl
  all_goals simp only []
  repeat' split
  all_goals rfl

/-- `function`-level merge: an already-recorded name is kept. -/
theorem applyFunctionField_name_some (cs : ToolCallState) (func : Json) (n : String)
    (h : cs.name = some n) : (applyFunctionField cs func).name = some n := by
  unfold applyFunctionField
  repeat' split
  all_goals simp [getOrInsert, h]

/-- `function`-level merge: an empty slot name becomes the fragment's name
exactly when the fragment carries a nonempty one. -/
theorem applyFunctionField_name_none (cs : ToolCallState) (func : Json)
    (h : cs.name = none) :
    (applyFunctionField cs func).name =
      (match func.getStr "name" with
       | some fname => if fname ≠ "" then some fname else none
       | none => none) := by
  unfold applyFunctionField
  repeat' split
  all_goals simp_all [getOrInsert]

/-- `function`-level merge: arguments are appended as strings. -/
theorem applyFunctionField_arguments (cs : ToolCallState) (func : Json) :
    (applyFunctionField cs func).arguments =
      cs.arguments ++ ((func.getStr "arguments").getD "") := by
  unfold applyFunctionField
  repeat' split
  all_goals simp_all [getOrInsert]

/-- The `id` merge never touches name or arguments. -/
theorem mergeFragment_decomp (cs : ToolCallState) (choice delta toolCall : Json) :
    ∃ cs', (mergeFragment cs choice delta toolCall).name =
        (match toolCall.get "function" with
         | some func => applyFunctionField cs' func
         | none => cs').name ∧
      (mergeFragment cs choice delta toolCall).arguments =
        (match toolCall.get "function" with
         | some func => applyFunctionField cs' func
         | none => cs').arguments ∧
      cs'.name = cs.name ∧ cs'.arguments = cs.arguments := by
  unfold mergeFragment
  refine ⟨(match toolCall.getStr "id" with
    | some id => { cs with id := getOrInsert cs.id id }
    | none => cs), ?_, ?_, ?_, ?_⟩
  · simp only [applySigFallbacks_name]
  · simp only [applySigFallbacks_arguments]
  · split <;> rfl
  · split <;> rfl

/-- C3: fragments routed to a slot merge with first-nonempty-name-wins and
string-concatenated arguments, slot routing is by `index`, by previously-seen
`id`, or by the most recent slot when both are absent, and the S1 stream
produces exactly the expected `FunctionCall` followed by `Completed`. -/
theorem c3_fragment_merge :
    (∀ (st : ChatState) (toolCall : Json) (i : Nat),
      toolCall.getStr "id" = none → (toolCall.get "index").bind Json.asU64 = some i →
      resolveFragmentSlot st toolCall = (i, st.nextToolCallIndex)) ∧
    (∀ (st : ChatState) (toolCall : Json) (cid : String) (k : Nat),
      toolCall.getStr "id" = some cid → st.toolCallIndexById.lookup cid = some k →
      resolveFragmentSlot st toolCall = (k, st.nextToolCallIndex)) ∧
    (∀ (st : ChatState) (toolCall : Json) (j : Nat),
      toolCall.getStr "id" = none → (toolCall.get "index").bind Json.asU64 = none →
      st.lastToolCallIndex = some j →
      resolveFragmentSlot st toolCall = (j, st.nextToolCallIndex)) ∧
    (∀ (cs : ToolCallState) (choice delta toolCall : Json) (n : String),
      cs.name = some n → (mergeFragment cs choice delta toolCall).name = some n) ∧
    (∀ (cs : ToolCallState) (choice delta toolCall : Json),
      cs.name = none →
      (mergeFragment cs choice delta toolCall).name =
        (match (toolCall.get "function").bind (Json.getStr · "name") with
         | some fname => if fname ≠ "" then some fname else none
         | none => none)) ∧
    (∀ (cs : ToolCallState) (choice delta toolCall : Json),
      (mergeFragment cs choice delta toolCall).arguments =
        cs.arguments ++
          (((toolCall.get "function").bind (Json.getStr · "arguments")).getD "")) ∧
    process_chat_sse [s1Frame1, s1Frame2, s1Frame3, toolCallsFinishFrame] =
      [.ok (.outputItemDone (.functionCall none "do_a" "\x7b \"foo\":1\x7d" "call_a" none)),
       .ok (.completed "" none)] := by
  refine ⟨?_, ?_, ?_, ?_, ?_, ?_, by decide⟩
  · intro st toolCall i hid hidx
    unfold resolveFragmentSlot
    simp [hid, hidx]
  · intro st toolCall cid k hid hlk
    unfold resolveFragmentSlot
    simp [hid, hlk]
  · intro st toolCall j hid hidx hlast
    unfold resolveFragmentSlot
    simp [hid, hidx, hlast]
  · intro cs choice delta toolCall n h
    obtain ⟨cs', hn, _, hcsn, _⟩ := mergeFragment_decomp cs choice delta toolCall
    rw [hn]
    split
    · next func heq => exact applyFunctionField_name_some cs' func n (hcsn ▸ h)
    · next heq => exact hcsn ▸ h
  · intro cs choice delta toolCall h
    obtain ⟨cs', hn, _, hcsn, _⟩ := mergeFragment_decomp cs choice delta toolCall
    rw [hn]
    cases hfn : toolCall.get "function" with
    | some func =>
      simp only [hfn, Option.bind]
      exact applyFunctionField_name_none cs' func (hcsn ▸ h)
    | none =>
      simp only [hfn, Option.bind]
      exact hcsn ▸ h
  · intro cs choice delta toolCall
    obtain ⟨cs', _, ha, _, hcsa⟩ := mergeFragment_decomp cs choice delta toolCall
    rw [ha]
    cases hfn : toolCall.get "function" with
    | some func =>
      simp only [hfn, Option.bind]
      rw [applyFunctionField_arguments, hcsa]
    | none =>
      simp only [hfn, Option.bind, Option.getD]
      rw [hcsa]
      exact (String.append_empty _).symm

/-- Witness for `c3_fragment_merge`: the name merge at a concrete slot state
and fragment. -/
theorem c3_fragment_merge_witness :
    (mergeFragment ⟨some "call_a", some "do_a", "", none⟩ Json.null Json.null
      (.obj [("function", .obj [("name", .str "other"), ("arguments", .str "xx")])])).name =
      some "do_a" :=
  c3_fragment_merge.2.2.2.1 ⟨some "call_a", some "do_a", "", none⟩ Json.null Json.null
    (.obj [("function", .obj [("name", .str "other"), ("arguments", .str "xx")])]) "do_a" rfl

/-- `pushAssistantText` emits only open-message and text-delta events. -/
theorem pushAssistantText_events (assistant : Option ResponseItem) (text : String) :
    ((pushAssistantText assistant text).2.all isTextStreamEv) = true := by
  cases assistant with
  | none => rfl
  | some a => cases a <;> rfl

/-- The XML scan loop emits only open-message and text-delta events. -/
theorem xmlScanLoopAux_events (fuel : Nat) :
    ∀ (buffer : List Char) (pending : List XmlToolCall)
      (assistant : Option ResponseItem),
      ((xmlScanLoopAux fuel buffer pending assistant).2.2.2.all isTextStreamEv) = true := by
  induction fuel with
  | zero => intro buffer pending assistant; rfl
  | succ fuel ih =>
    intro buffer pending assistant
    unfold xmlScanLoopAux
    repeat' split
    all_goals try rfl
    all_goals try exact ih _ _ _
    all_goals try dsimp only
    all_goals split
    all_goals try exact ih _ _ _
    all_goals
      try dsimp only
      simp [List.all_append, pushAssistantText_events, ih]

/-- `append_assistant_text` emits only open-message and text-delta events:
in particular it never emits a `FunctionCall` item nor `Completed` — parsed
XML tool calls are only queued. -/
theorem append_assistant_text_events (buffer : List Char) (pending : List XmlToolCall)
    (assistant : Option ResponseItem) (text : String) :
    ((append_assistant_text buffer pending assistant text).2.2.2.all isTextStreamEv) = true := by
  unfold append_assistant_text xmlScanLoop
  dsimp only
  repeat' split
  all_goals
    dsimp only
    simp [List.all_append, xmlScanLoopAux_events, pushAssistantText_events]

/-- C7: a complete `<tool_call>` block in assistant text parses to the
function name and parameter map; the deferred drain emits, per pending block,
a synthetic `FunctionCall` with `call_id = "xml-tool-call-<N>"` (counting
from `counter + 1` in order) and the JSON encoding of the parameters as
arguments; text processing itself emits only text events (the synthetic call
is deferred to stream termination); and on the S2 stream the decoder emits
exactly the expected `FunctionCall` followed by `Completed`. -/
theorem c7_xml_tool_call :
    parse_xml_tool_call
        "<tool_call>\n<function=test_function>\n<parameter=arg1>value1</parameter>\n</function>\n</tool_call>".data =
      some ⟨"test_function", [("arg1", "value1")]⟩ ∧
    (∀ (counter : Nat) (pending : List XmlToolCall),
      flushXmlEvents counter pending = pending.enum.map fun p =>
        OutEvent.ok (.outputItemDone (.functionCall none p.2.functionName
          (encodeParamsJson p.2.parameters)
          ("xml-tool-call-" ++ toString (counter + p.1 + 1)) none))) ∧
    (∀ (buffer : List Char) (pending : List XmlToolCall)
        (assistant : Option ResponseItem) (text : String),
      ((append_assistant_text buffer pending assistant text).2.2.2.all
        isTextStreamEv) = true) ∧
    process_chat_sse [s2Frame1, stopFinishFrame] =
      [.ok (.outputItemDone (.functionCall none "test_function"
        "\x7b\"arg1\":\"value1\"\x7d" "xml-tool-call-1" none)),
       .ok (.completed "" none)] := by
  refine ⟨by decide, ?_, append_assistant_text_events, by decide⟩
  intro counter pending
  induction pending generalizing counter with
  | nil => rfl
  | cons tc rest ih =>
    rw [flushXmlEvents, ih (counter + 1), List.enum_cons']
    simp only [List.map_cons, List.map_map]
    refine congrArg₂ _ (by simp) ?_
    apply List.map_congr_left
    intro p hp
    obtain ⟨i, tcx⟩ := p
    simp only [Function.comp_apply, Prod.map_apply, id_eq]
    have h : counter + 1 + i + 1 = counter + (i + 1) + 1 := by omega
    rw [h]

/-- Text-stream events are never `Completed`. -/
theorem textStream_completedFree (l : List OutEvent)
    (h : l.all isTextStreamEv = true) : completedFree l = true := by
  simp only [completedFree, List.all_eq_true] at h ⊢
  intro e he
  have := h e he
  cases e with
  | err a => simp [isTextStreamEv] at this
  | ok ev => cases ev <;> simp_all [isTextStreamEv, isCompletedEv]

/-- `append_reasoning_text` never emits `Completed` (membership form). -/
theorem append_reasoning_text_mem (ri : Option ResponseItem) (text : String) :
    ∀ x ∈ (append_reasoning_text ri text).2, isCompletedEv x = false := by
  have : completedFree (append_reasoning_text ri text).2 = true := by
    unfold append_reasoning_text
    dsimp only
    repeat' split
    all_goals rfl
  simpa [completedFree] using this

/-- `applyReasoningField` never emits `Completed` (membership form). -/
theorem applyReasoningField_mem (ri : Option ResponseItem) (r : Json) :
    ∀ x ∈ (applyReasoningField ri r).2, isCompletedEv x = false := by
  have hgen : ∀ (l : List Json) (acc : Option ResponseItem × List OutEvent),
      (∀ x ∈ acc.2, isCompletedEv x = false) →
      ∀ x ∈ ((l.foldl
        (fun (acc : Option ResponseItem × List OutEvent) item =>
          match item.getStr "type", item.getStr "text" with
          | some "reasoning_text", some text =>
            if !(trimChars text.data).isEmpty then
              let (ri, evs) := append_reasoning_text acc.1 text
              (ri, acc.2 ++ evs)
            else acc
          | _, _ => acc) acc)).2, isCompletedEv x = false := by
    intro l
    induction l with
    | nil => intro acc hacc; exact hacc
    | cons item rest ih =>
      intro acc hacc
      rw [List.foldl_cons]
      apply ih
      split
      · split
        · dsimp only
          intro x hx
          rcases List.mem_append.mp hx with hx' | hx'
          · exact hacc x hx'
          · exact append_reasoning_text_mem _ _ x hx'
        · exact hacc
      · exact hacc
  unfold applyReasoningField
  repeat' split
  all_goals
    first
      | exact append_reasoning_text_mem _ _
      | exact hgen _ (ri, []) (by intro y hy; simp at hy)
      | (intro x hx; simp at hx)

/-- `runAppendAssistant` never emits `Completed` (membership form). -/
theorem runAppendAssistant_mem (st : ChatState) (text : String) :
    ∀ x ∈ (runAppendAssistant st text).1, isCompletedEv x = false := by
  have : completedFree (runAppendAssistant st text).1 = true := by
    unfold runAppendAssistant
    dsimp only
    exact textStream_completedFree _ (append_assistant_text_events _ _ _ _)
  simpa [completedFree] using this

/-- `applyContentField` never emits `Completed` (membership form). -/
theorem applyContentField_mem (st : ChatState) (content : Json) :
    ∀ x ∈ (applyContentField st content).1, isCompletedEv x = false := by
  unfold applyContentField
  split
  · next items =>
    have hgen : ∀ (l : List Json) (acc : List OutEvent × ChatState),
        (∀ x ∈ acc.1, isCompletedEv x = false) →
        ∀ x ∈ ((l.foldl
          (fun (acc : List OutEvent × ChatState) item =>
            match item.getStr "text" with
            | some text =>
              let (evs, st') := runAppendAssistant acc.2 text
              (acc.1 ++ evs, st')
            | none => acc) acc)).1, isCompletedEv x = false := by
      intro l
      induction l with
      | nil => intro acc hacc; exact hacc
      | cons item rest ih =>
        intro acc hacc
        rw [List.foldl_cons]
        apply ih
        split
        · dsimp only
          intro x hx
          rcases List.mem_append.mp hx with hx' | hx'
          · exact hacc x hx'
          · exact runAppendAssistant_mem _ _ x hx'
        · exact hacc
    exact hgen items ([], st) (by simp)
  · split
    · exact runAppendAssistant_mem _ _
    · simp

/-- `processDelta` never emits `Completed` (membership form). -/
theorem processDelta_mem (st : ChatState) (choice delta : Json) :
    ∀ x ∈ (processDelta st choice delta).1, isCompletedEv x = false := by
  unfold processDelta
  dsimp only
  repeat' split
  all_goals
    intro x hx
    simp only [List.mem_append] at hx
    rcases hx with (hx' | hx') | hx'
    · first
      | exact applyReasoningField_mem _ _ x hx'
      | simp at hx'
    · first
      | exact append_reasoning_text_mem _ _ x hx'
      | simp at hx'
    · first
      | exact applyContentField_mem _ _ x hx'
      | simp at hx'

/-- `finalizeLoop` emits only `OutputItemDone` events (membership form). -/
theorem finalizeLoop_mem (order : List Nat) :
    ∀ (m : List (Nat × ToolCallState)) (seen : List Nat) (rd : List (String × String)),
      ∀ x ∈ (finalizeLoop order m seen rd).1, isCompletedEv x = false := by
  induction order with
  | nil => intro m seen rd; simp [finalizeLoop]
  | cons idx rest ih =>
    intro m seen rd
    unfold finalizeLoop
    repeat' split
    all_goals try exact ih _ _ _
    all_goals
      dsimp only
      intro x hx
      rcases List.mem_cons.mp hx with rfl | hx'
      exacts [rfl, ih _ _ _ x hx']

/-- `finishToolCallsBranch` never emits `Completed` (membership form). -/
theorem finishToolCallsBranch_mem (st : ChatState) :
    ∀ x ∈ (finishToolCallsBranch st).1, isCompletedEv x = false := by
  unfold finishToolCallsBranch
  dsimp only
  split
  all_goals
    intro x hx
    simp only [List.mem_append] at hx
    rcases hx with hx' | hx'
    · first
      | (rcases List.mem_singleton.mp hx' with rfl; rfl)
      | simp at hx'
    · exact finalizeLoop_mem _ _ _ _ x hx'

/-- `flushXmlEvents` emits only `OutputItemDone` events (membership form). -/
theorem flushXmlEvents_mem (pending : List XmlToolCall) :
    ∀ counter, ∀ x ∈ flushXmlEvents counter pending, isCompletedEv x = false := by
  induction pending with
  | nil => intro counter; simp [flushXmlEvents]
  | cons tc rest ih =>
    intro counter x hx
    rcases List.mem_cons.mp hx with rfl | hx'
    · rfl
    · exact ih _ x hx'

/-- The terminal flush is its `Completed`-free prefix followed by exactly one
`Completed` carrying the accumulated usage. -/
theorem flushEndEvents_eq (st : ChatState) :
    flushEndEvents st = flushEndPrefix st ++ [.ok (.completed "" st.accumulatedUsage)] := by
  unfold flushEndEvents flushEndPrefix
  simp [List.append_assoc]

/-- The terminal-flush prefix never contains `Completed`. -/
theorem flushEndPrefix_mem (st : ChatState) :
    ∀ x ∈ flushEndPrefix st, isCompletedEv x = false := by
  unfold flushEndPrefix
  intro x hx
  simp only [List.mem_append] at hx
  rcases hx with (hx' | hx') | hx'
  · revert hx'
    split <;> intro hx' <;> simp_all [isCompletedEv]
  · exact flushXmlEvents_mem _ _ x hx'
  · revert hx'
    split <;> intro hx' <;> simp_all [isCompletedEv]

/-- Any two `Completed`-free event lists followed by the terminal flush form
a `Completed`-free prefix followed by exactly one `Completed`. -/
theorem stopPair_spec (a b : List OutEvent) (st : ChatState)
    (ha : ∀ x ∈ a, isCompletedEv x = false) (hb : ∀ x ∈ b, isCompletedEv x = false) :
    ∃ evs' u, (a ++ b ++ flushEndEvents st, (none : Option ChatState)) =
        (evs' ++ [OutEvent.ok (.completed "" u)], none) ∧ completedFree evs' = true := by
  refine ⟨a ++ b ++ flushEndPrefix st, st.accumulatedUsage, ?_, ?_⟩
  · rw [flushEndEvents_eq, ← List.append_assoc]
  · simp only [completedFree, List.all_eq_true, Bool.not_eq_true']
    intro x hx
    simp only [List.mem_append] at hx
    rcases hx with (hx | hx) | hx
    exacts [ha x hx, hb x hx, flushEndPrefix_mem st x hx]

/-- `processChoice` either continues with `Completed`-free events or returns
with a `Completed`-free prefix followed by exactly one `Completed`. -/
theorem processChoice_spec (st : ChatState) (choice : Json) :
    (∃ evs st', processChoice st choice = (evs, some st') ∧ completedFree evs = true) ∨
    (∃ evs' u, processChoice st choice = (evs' ++ [OutEvent.ok (.completed "" u)], none) ∧
      completedFree evs' = true) := by
  unfold processChoice
  dsimp only
  repeat' split
  all_goals
    try (left
         refine ⟨_, _, rfl, ?_⟩
         simp only [completedFree, List.all_eq_true, Bool.not_eq_true']
         intro x hx
         simp only [List.mem_append] at hx
         repeat' rcases hx with hx | hx
         all_goals
           first
             | exact processDelta_mem _ _ _ x hx
             | exact applyReasoningField_mem _ _ x hx
             | exact finishToolCallsBranch_mem _ x hx
             | simp at hx)
  all_goals
    right
    refine stopPair_spec _ _ _ ?_ ?_
  all_goals intro x hx
  all_goals
    first
      | exact processDelta_mem _ _ _ x hx
      | exact applyReasoningField_mem _ _ x hx
      | simp at hx

/-- `processChoices` lifts the per-choice specification to the choice list. -/
theorem processChoices_spec (choices : List Json) :
    ∀ st : ChatState,
      (∃ evs st', processChoices st choices = (evs, some st') ∧ completedFree evs = true) ∨
      (∃ evs' u, processChoices st choices = (evs' ++ [OutEvent.ok (.completed "" u)], none) ∧
        completedFree evs' = true) := by
  induction choices with
  | nil => intro st; exact Or.inl ⟨[], st, rfl, rfl⟩
  | cons c rest ih =>
    intro st
    rcases processChoice_spec st c with ⟨evs, st', heq, hcf⟩ | ⟨evs', u, heq, hcf⟩
    · rcases ih st' with ⟨evs2, st'', heq2, hcf2⟩ | ⟨evs2', u2, heq2, hcf2⟩
      · left
        refine ⟨evs ++ evs2, st'', ?_, ?_⟩
        · unfold processChoices
          rw [heq]
          dsimp only
          rw [heq2]
        · simp only [completedFree, List.all_append] at hcf hcf2 ⊢
          rw [hcf, hcf2]
          rfl
      · right
        refine ⟨evs ++ evs2', u2, ?_, ?_⟩
        · unfold processChoices
          rw [heq]
          dsimp only
          rw [heq2, List.append_assoc]
        · simp only [completedFree, List.all_append] at hcf hcf2 ⊢
          rw [hcf, hcf2]
          rfl
    · right
      refine ⟨evs', u, ?_, hcf⟩
      unfold processChoices
      rw [heq]

/-- `chatStep` either continues with `Completed`-free events or returns with
a `Completed`-free prefix followed by exactly one `Completed`. -/
theorem chatStep_spec (st : ChatState) (f : ChatFrame) :
    (∃ evs st', chatStep st f = (evs, some st') ∧ completedFree evs = true) ∨
    (∃ evs' u, chatStep st f = (evs' ++ [OutEvent.ok (.completed "" u)], none) ∧
      completedFree evs' = true) := by
  cases f with
  | skip => exact Or.inl ⟨[], st, rfl, rfl⟩
  | doneMarker =>
    right
    refine ⟨flushEndPrefix st, st.accumulatedUsage, ?_, ?_⟩
    · show (flushEndEvents st, (none : Option ChatState)) = _
      rw [flushEndEvents_eq]
    · simp only [completedFree, List.all_eq_true, Bool.not_eq_true']
      exact flushEndPrefix_mem st
  | json v =>
    unfold chatStep
    dsimp only
    repeat' split
    all_goals try exact Or.inl ⟨[], _, rfl, rfl⟩
    all_goals try exact processChoices_spec _ _
    all_goals right
    all_goals rename_i evs heq
    all_goals split at heq
    all_goals try simp at heq
    all_goals
      rcases heq with ⟨item, hpi, hf⟩
    all_goals subst hf
    all_goals exact ⟨[OutEvent.ok (.outputItemDone item)], _, rfl, rfl⟩

/-- The Chat decoder run always ends in exactly one final `Completed`. -/
theorem chatRun_ends (frames : List ChatFrame) :
    ∀ st : ChatState, ∃ evs u,
      chatRun st frames = evs ++ [OutEvent.ok (.completed "" u)] ∧
        completedFree evs = true := by
  induction frames with
  | nil =>
    intro st
    refine ⟨flushEndPrefix st, st.accumulatedUsage, ?_, ?_⟩
    · unfold chatRun
      exact flushEndEvents_eq st
    · simp only [completedFree, List.all_eq_true, Bool.not_eq_true']
      exact flushEndPrefix_mem st
  | cons f rest ih =>
    intro st
    rcases chatStep_spec st f with ⟨evs, st', heq, hcf⟩ | ⟨evs', u, heq, hcf⟩
    · obtain ⟨evs2, u, heq2, hcf2⟩ := ih st'
      refine ⟨evs ++ evs2, u, ?_, ?_⟩
      · unfold chatRun
        rw [heq]
        dsimp only
        rw [heq2, List.append_assoc]
      · simp only [completedFree, List.all_append] at hcf hcf2 ⊢
        rw [hcf, hcf2]
        rfl
    · refine ⟨evs', u, ?_, hcf⟩
      unfold chatRun
      rw [heq]

/-- `respStep` never emits `Completed` (only the end-of-stream handler can). -/
theorem respStep_mem (st : RespState) (f : RespFrame) :
    ∀ x ∈ (respStep st f).1, isCompletedEv x = false := by
  cases f with
  | invalid => simp [respStep]
  | event kind response item delta si ci =>
    unfold respStep
    repeat' split
    all_goals intro x hx
    all_goals
      first
        | (rcases List.mem_singleton.mp hx with rfl; rfl)
        | simp at hx

/-- `respStep` records a parsed `response.completed` frame and never clears
the recorded one. -/
theorem respStep_completedSome (st : RespState) (f : RespFrame) :
    ((respStep st f).2.responseCompleted.isSome) =
      (st.responseCompleted.isSome || goodCompletedFrame f) := by
  cases f with
  | invalid => simp [respStep, goodCompletedFrame]
  | event kind response item delta si ci =>
    cases response with
    | none =>
      unfold respStep goodCompletedFrame
      dsimp only
      repeat' split
      all_goals simp_all
    | some v =>
      unfold respStep goodCompletedFrame
      dsimp only
      repeat' split
      all_goals simp_all

/-- The Responses decoder run: `Completed`-free events followed by exactly
one final event, which is `Completed` iff a parseable `response.completed`
frame was seen (or already recorded in the state). -/
theorem respRun_spec (frames : List RespFrame) :
    ∀ st : RespState, ∃ evs last,
      respRun st frames = evs ++ [last] ∧ completedFree evs = true ∧
        isCompletedEv last =
          (st.responseCompleted.isSome || frames.any goodCompletedFrame) := by
  induction frames with
  | nil =>
    intro st
    unfold respRun respFinish
    split
    · next p heq =>
      refine ⟨[], _, rfl, rfl, ?_⟩
      simp [isCompletedEv, heq]
    · next heq =>
      refine ⟨[], _, rfl, rfl, ?_⟩
      simp [isCompletedEv, heq]
  | cons f rest ih =>
    intro st
    obtain ⟨evs2, last, heq2, hcf2, hlast⟩ := ih (respStep st f).2
    refine ⟨(respStep st f).1 ++ evs2, last, ?_, ?_, ?_⟩
    · unfold respRun
      dsimp only
      rw [heq2, List.append_assoc]
    · simp only [completedFree, List.all_eq_true, Bool.not_eq_true'] at hcf2 ⊢
      intro x hx
      rcases List.mem_append.mp hx with hx' | hx'
      · exact respStep_mem st f x hx'
      · exact hcf2 x hx'
    · rw [hlast, respStep_completedSome]
      simp [Bool.or_assoc]

/-- C2 counterexample: on a valid Responses stream consisting of one
`response.output_item.done` event and then end of stream, the Responses
decoder emits events but no `Completed` at all (it reports a stream error
instead), contradicting the claimed exactly-one-`Completed` guarantee. -/
theorem c2_completed_counterexample :
    completedCount (process_sse [respItemDoneFrame]) = 0 ∧
      process_sse [respItemDoneFrame] ≠ [] := by decide

/-- Every `tool_calls` entry emitted by the `ChatRequestBuilder::build` item
loop carries an `id` whose `unwrap_or_default` value is an id of the
matched-output set. -/
theorem buildLoop_toolCalls_outputs (input : List ResponseItem)
    (outputIds : List String) (anchors : List (Nat × String)) :
    ∀ (l : List ResponseItem) (idx : Nat) (la : Option String),
      ∀ m ∈ buildLoop input outputIds anchors idx la l, ∀ e ∈ m.toolCalls,
        outputIds.contains (e.id.getD "") = true := by
  intro l
  induction l with
  | nil =>
    intro idx la m hm
    simp [buildLoop] at hm
  | cons item rest ih =>
    intro idx la m hm e he
    cases item
    all_goals simp only [buildLoop] at hm
    all_goals repeat' split at hm
    all_goals
      first
        | exact ih _ _ m hm e he
        | (rcases List.mem_cons.mp hm with rfl | hm
           · first
               | (rcases List.mem_singleton.mp he with rfl
                  simp_all)
               | simp at he
           · exact ih _ _ m hm e he)

/-- A `FunctionCall` whose `call_id` is in the matched-output set is emitted
as an assistant message carrying the function-typed `tool_calls` entry. -/
theorem buildLoop_functionCall_matched (input : List ResponseItem)
    (outputIds : List String) (anchors : List (Nat × String))
    (fid : Option String) (name args cid : String) (sig : Option String)
    (hpos : outputIds.contains cid = true) :
    ∀ (l : List ResponseItem) (idx : Nat) (la : Option String),
      ResponseItem.functionCall fid name args cid sig ∈ l →
      ∃ r, ChatMessage.mk "assistant" .nullContent
          [⟨some cid, "function", name, args, sig⟩] none r
          (sig.map fun s => (cid, s)) ∈ buildLoop input outputIds anchors idx la l := by
  intro l
  induction l with
  | nil => intro idx la hmem; simp at hmem
  | cons item rest ih =>
    intro idx la hmem
    rcases List.mem_cons.mp hmem with heq | hmem'
    · subst heq
      refine ⟨anchors.lookup idx, ?_⟩
      have hin : cid ∈ outputIds := by simpa using hpos
      simp only [buildLoop]
      simp [hin]
    · cases item
      all_goals simp only [buildLoop]
      all_goals repeat' split
      all_goals
        first
          | exact Exists.imp (fun r hr => List.mem_cons_of_mem _ hr) (ih _ _ hmem')
          | exact ih _ _ hmem'

/-- A `FunctionCall` whose `call_id` is not in the matched-output set is
emitted as a plain assistant text message with no `tool_calls`. -/
theorem buildLoop_functionCall_unmatched (input : List ResponseItem)
    (outputIds : List String) (anchors : List (Nat × String))
    (fid : Option String) (name args cid : String) (sig : Option String)
    (hneg : outputIds.contains cid = false) :
    ∀ (l : List ResponseItem) (idx : Nat) (la : Option String),
      ResponseItem.functionCall fid name args cid sig ∈ l →
      ∃ r, ChatMessage.mk "assistant"
          (.strContent (functionCallFallbackText name args cid)) [] none r none
            ∈ buildLoop input outputIds anchors idx la l := by
  intro l
  induction l with
  | nil => intro idx la hmem; simp at hmem
  | cons item rest ih =>
    intro idx la hmem
    rcases List.mem_cons.mp hmem with heq | hmem'
    · subst heq
      refine ⟨anchors.lookup idx, ?_⟩
      have hin : cid ∉ outputIds := by simpa using hneg
      simp only [buildLoop]
      simp [hin]
    · cases item
      all_goals simp only [buildLoop]
      all_goals repeat' split
      all_goals
        first
          | exact Exists.imp (fun r hr => List.mem_cons_of_mem _ hr) (ih _ _ hmem')
          | exact ih _ _ hmem'

/-- A `CustomToolCall` whose `id.unwrap_or_default()` is in the
matched-output set is emitted as an assistant message carrying the
function-typed `tool_calls` entry keyed by its `id`. -/
theorem buildLoop_customToolCall_matched (input : List ResponseItem)
    (outputIds : List String) (anchors : List (Nat × String))
    (id : Option String) (cid name inp status : String)
    (hpos : outputIds.contains (id.getD "") = true) :
    ∀ (l : List ResponseItem) (idx : Nat) (la : Option String),
      ResponseItem.customToolCall id cid name inp status ∈ l →
      ChatMessage.mk "assistant" .nullContent
          [⟨id, "function", name, jsonStringLit inp, none⟩] none none none
            ∈ buildLoop input outputIds anchors idx la l := by
  intro l
  induction l with
  | nil => intro idx la hmem; simp at hmem
  | cons item rest ih =>
    intro idx la hmem
    rcases List.mem_cons.mp hmem with heq | hmem'
    · subst heq
      have hin : id.getD "" ∈ outputIds := by simpa using hpos
      simp only [buildLoop]
      simp [hin]
    · cases item
      all_goals simp only [buildLoop]
      all_goals repeat' split
      all_goals
        first
          | exact List.mem_cons_of_mem _ (ih _ _ hmem')
          | exact ih _ _ hmem'

/-- A `CustomToolCall` whose `id.unwrap_or_default()` is not in the
matched-output set is emitted as a plain assistant text message with no
`tool_calls`. -/
theorem buildLoop_customToolCall_unmatched (input : List ResponseItem)
    (outputIds : List String) (anchors : List (Nat × String))
    (id : Option String) (cid name inp status : String)
    (hneg : outputIds.contains (id.getD "") = false) :
    ∀ (l : List ResponseItem) (idx : Nat) (la : Option String),
      ResponseItem.customToolCall id cid name inp status ∈ l →
      ChatMessage.mk "assistant"
          (.strContent (customToolCallFallbackText name inp (id.getD ""))) []
            none none none ∈ buildLoop input outputIds anchors idx la l := by
  intro l
  induction l with
  | nil => intro idx la hmem; simp at hmem
  | cons item rest ih =>
    intro idx la hmem
    rcases List.mem_cons.mp hmem with heq | hmem'
    · subst heq
      have hin : id.getD "" ∉ outputIds := by simpa using hneg
      simp only [buildLoop]
      simp [hin]
    · cases item
      all_goals simp only [buildLoop]
      all_goals repeat' split
      all_goals
        first
          | exact List.mem_cons_of_mem _ (ih _ _ hmem')
          | exact ih _ _ hmem'

/-- Membership in the item-loop output transfers to the assembled `messages`
array. -/
theorem buildLoop_mem_build (instructions : String) (input : List ResponseItem) :
    ∀ m ∈ buildLoop input (callIdsWithOutput input) (reasoningByAnchorIndex input)
        0 none input,
      m ∈ build_chat_messages instructions input := by
  intro m hm
  unfold build_chat_messages
  dsimp only
  split
  · exact List.mem_cons_of_mem _ hm
  · exact List.mem_append_left _ (List.mem_cons_of_mem _ hm)

/-- C2 (amended): the Chat decoder emits exactly one `Completed`, as the last
event, on every finite frame stream; the Responses decoder emits
`Completed`-free events followed by exactly one final event, and that final
event is a `Completed` iff the stream contained a parseable
`response.completed` frame (otherwise it is an error). -/
theorem c2_completed_amended :
    (∀ frames : List ChatFrame, ∃ evs u,
      process_chat_sse frames = evs ++ [OutEvent.ok (.completed "" u)] ∧
        completedFree evs = true) ∧
    (∀ frames : List RespFrame, ∃ evs last,
      process_sse frames = evs ++ [last] ∧ completedFree evs = true ∧
        isCompletedEv last = frames.any goodCompletedFrame) := by
  constructor
  · intro frames
    exact chatRun_ends frames initChatState
  · intro frames
    obtain ⟨evs, last, h1, h2, h3⟩ := respRun_spec frames ⟨none, none⟩
    refine ⟨evs, last, h1, h2, ?_⟩
    simpa using h3

/-- Shifting all indices of an enumerated list commutes with the
missing-output filter, moving the shift outside. -/
theorem filterMap_shift (full : List ResponseItem) :
    ∀ l : List (Nat × ResponseItem),
      (l.map (Prod.map (· + 1) id)).filterMap (fun p =>
          match placeholderFor p.2 with
          | some ph => if lacksOutput full p.2 then some (p.1, ph) else none
          | none => none) =
        (l.filterMap (fun p =>
          match placeholderFor p.2 with
          | some ph => if lacksOutput full p.2 then some (p.1, ph) else none
          | none => none)).map (Prod.map (· + 1) id) := by
  intro l
  induction l with
  | nil => rfl
  | cons p rest ih =>
    obtain ⟨i, x⟩ := p
    simp only [List.map_cons, List.filterMap_cons]
    cases hph : placeholderFor x with
    | none => simp [hph, ih]
    | some ph =>
      simp only [hph]
      cases hl : lacksOutput full x <;> simp [hph, hl, ih, Prod.map]

/-- One step of the `missing_outputs_to_insert` collection: the head
contributes `(0, placeholder)` when it is a call lacking an output, and the
tail indices shift by one. -/
theorem missingFrom_cons (full : List ResponseItem) (item : ResponseItem)
    (rest : List ResponseItem) :
    missingFrom full (item :: rest) =
      (match placeholderFor item with
       | some ph => if lacksOutput full item then [(0, ph)] else []
       | none => []) ++ (missingFrom full rest).map (Prod.map (· + 1) id) := by
  unfold missingFrom
  rw [List.enum_cons', List.filterMap_cons, filterMap_shift]
  cases hph : placeholderFor item with
  | none => simp [hph]
  | some ph =>
    simp only [hph]
    cases hl : lacksOutput full item <;> simp [hph, hl]

/-- Inserting index-shifted `(idx + 1, ph)` pairs into `item :: rest` leaves
the head alone and performs the unshifted insertions on the tail. -/
theorem insertIdx_foldr_shift (ms : List (Nat × ResponseItem)) :
    ∀ (item : ResponseItem) (rest : List ResponseItem),
      (ms.map (Prod.map (· + 1) id)).foldr
          (fun p acc => acc.insertIdx (p.1 + 1) p.2) (item :: rest) =
        item :: ms.foldr (fun p acc => acc.insertIdx (p.1 + 1) p.2) rest := by
  induction ms with
  | nil => intro item rest; rfl
  | cons p ms ih =>
    intro item rest
    obtain ⟨i, x⟩ := p
    simp only [List.map_cons, List.foldr_cons, ih]
    simp [Prod.map, List.insertIdx_succ_cons]

/-- Inserting the collected placeholders in reverse index order realizes the
per-item `pairFill` expansion. -/
theorem missingFrom_foldr (full : List ResponseItem) :
    ∀ l : List ResponseItem,
      (missingFrom full l).foldr (fun p acc => acc.insertIdx (p.1 + 1) p.2) l =
        pairFill full l := by
  intro l
  induction l with
  | nil => rfl
  | cons item rest ih =>
    rw [missingFrom_cons]
    cases hph : placeholderFor item with
    | none =>
      simp only [hph, List.nil_append]
      rw [insertIdx_foldr_shift, ih]
      simp [pairFill, hph]
    | some ph =>
      simp only [hph]
      cases hl : lacksOutput full item with
      | false =>
        simp only [Bool.false_eq_true, if_false, List.nil_append]
        rw [insertIdx_foldr_shift, ih]
        simp [pairFill, hph, hl]
      | true =>
        simp only [if_true]
        rw [List.foldr_append, insertIdx_foldr_shift, ih]
        simp [pairFill, hph, hl, List.insertIdx_succ_cons, List.insertIdx_zero]

/-- `ensure_call_outputs_present` equals the per-item expansion `pairFill`:
each call lacking an output is followed directly by its placeholder. -/
theorem ensure_eq_pairFill (items : List ResponseItem) :
    ensure_call_outputs_present items = pairFill items items := by
  unfold ensure_call_outputs_present missingOutputs
  rw [List.foldl_reverse]
  exact missingFrom_foldr items items

/-- `pairFill` keeps every element of its base list. -/
theorem mem_pairFill (full : List ResponseItem) :
    ∀ (l : List ResponseItem) (a : ResponseItem), a ∈ l → a ∈ pairFill full l := by
  intro l
  induction l with
  | nil => intro a ha; simp at ha
  | cons item rest ih =>
    intro a ha
    rcases List.mem_cons.mp ha with rfl | ha'
    · unfold pairFill
      repeat' split
      all_goals exact List.mem_cons_self _ _
    · unfold pairFill
      repeat' split
      all_goals
        first
          | exact List.mem_cons_of_mem _ (List.mem_cons_of_mem _ (ih a ha'))
          | exact List.mem_cons_of_mem _ (ih a ha')

/-- Every element of `pairFill full l` is an element of `l` or the
placeholder of a call of `l` lacking an output. -/
theorem pairFill_mem (full : List ResponseItem) :
    ∀ (l : List ResponseItem) (x : ResponseItem), x ∈ pairFill full l →
      x ∈ l ∨ ∃ y ∈ l, placeholderFor y = some x ∧ lacksOutput full y = true := by
  intro l
  induction l with
  | nil => intro x hx; simp [pairFill] at hx
  | cons item rest ih =>
    intro x hx
    unfold pairFill at hx
    split at hx
    · rename_i ph hph
      split at hx
      · rename_i hlack
        rcases List.mem_cons.mp hx with rfl | hx'
        · exact Or.inl (List.mem_cons_self _ _)
        rcases List.mem_cons.mp hx' with rfl | hx''
        · exact Or.inr ⟨item, List.mem_cons_self _ _, hph, hlack⟩
        rcases ih x hx'' with h | ⟨y, hy, hphy, hlacky⟩
        · exact Or.inl (List.mem_cons_of_mem _ h)
        · exact Or.inr ⟨y, List.mem_cons_of_mem _ hy, hphy, hlacky⟩
      · rcases List.mem_cons.mp hx with rfl | hx'
        · exact Or.inl (List.mem_cons_self _ _)
        rcases ih x hx' with h | ⟨y, hy, hphy, hlacky⟩
        · exact Or.inl (List.mem_cons_of_mem _ h)
        · exact Or.inr ⟨y, List.mem_cons_of_mem _ hy, hphy, hlacky⟩
    · rcases List.mem_cons.mp hx with rfl | hx'
      · exact Or.inl (List.mem_cons_self _ _)
      rcases ih x hx' with h | ⟨y, hy, hphy, hlacky⟩
      · exact Or.inl (List.mem_cons_of_mem _ h)
      · exact Or.inr ⟨y, List.mem_cons_of_mem _ hy, hphy, hlacky⟩

/-- `pairFill` places the placeholder of a call lacking an output directly
after that call. -/
theorem pairFill_placeholder_seg (full : List ResponseItem) :
    ∀ (l : List ResponseItem) (c ph : ResponseItem), c ∈ l →
      placeholderFor c = some ph → lacksOutput full c = true →
      SegIn [c, ph] (pairFill full l) := by
  intro l
  induction l with
  | nil => intro c ph hc; simp at hc
  | cons item rest ih =>
    intro c ph hc hph hlack
    rcases List.mem_cons.mp hc with rfl | hc'
    · refine ⟨[], pairFill full rest, ?_⟩
      simp only [pairFill]
      simp [hph, hlack]
    · obtain ⟨s, t, hst⟩ := ih c ph hc' hph hlack
      unfold pairFill
      split
      · rename_i ph2 hph2
        split
        · exact ⟨item :: ph2 :: s, t, by rw [hst]; rfl⟩
        · exact ⟨item :: s, t, by rw [hst]; rfl⟩
      · exact ⟨item :: s, t, by rw [hst]; rfl⟩

/-- A contiguous two-element segment survives a filter both of whose
elements pass. -/
theorem filter_seg {α : Type} (p : α → Bool) (a b : α) (l : List α)
    (ha : p a = true) (hb : p b = true) :
    SegIn [a, b] l → SegIn [a, b] (l.filter p) := by
  rintro ⟨s, t, rfl⟩
  refine ⟨s.filter p, t.filter p, ?_⟩
  simp [List.filter_append, List.filter_cons, ha, hb]

/-- A placeholder is always an output item. -/
theorem placeholderFor_shape (y x : ResponseItem) (h : placeholderFor y = some x) :
    (∃ cid p, x = ResponseItem.functionCallOutput cid p) ∨
    (∃ cid o, x = ResponseItem.customToolCallOutput cid o) := by
  cases y with
  | functionCall a b c d e =>
    simp only [placeholderFor, Option.some.injEq] at h
    exact Or.inl ⟨d, _, h.symm⟩
  | customToolCall a b c d e =>
    simp only [placeholderFor, Option.some.injEq] at h
    exact Or.inr ⟨b, _, h.symm⟩
  | localShellCall a b c d =>
    cases b with
    | some cid =>
      simp only [placeholderFor, Option.some.injEq] at h
      exact Or.inl ⟨cid, _, h.symm⟩
    | none => simp [placeholderFor] at h
  | message a b c => simp [placeholderFor] at h
  | reasoning a b c d => simp [placeholderFor] at h
  | functionCallOutput a b => simp [placeholderFor] at h
  | customToolCallOutput a b => simp [placeholderFor] at h
  | webSearchCall a b => simp [placeholderFor] at h
  | ghostSnapshot => simp [placeholderFor] at h
  | compactionSummary => simp [placeholderFor] at h
  | other => simp [placeholderFor] at h

/-- Witnessing characterization of `hasFnOutput`. -/
theorem hasFnOutput_iff (l : List ResponseItem) (cid : String) :
    hasFnOutput l cid = true ↔
      ∃ p, ResponseItem.functionCallOutput cid p ∈ l := by
  unfold hasFnOutput
  rw [List.any_eq_true]
  constructor
  · rintro ⟨x, hx, hm⟩
    cases x <;> simp at hm
    subst hm
    exact ⟨_, hx⟩
  · rintro ⟨p, hp⟩
    exact ⟨_, hp, by simp⟩

/-- Witnessing characterization of `hasCustomOutput`. -/
theorem hasCustomOutput_iff (l : List ResponseItem) (cid : String) :
    hasCustomOutput l cid = true ↔
      ∃ o, ResponseItem.customToolCallOutput cid o ∈ l := by
  unfold hasCustomOutput
  rw [List.any_eq_true]
  constructor
  · rintro ⟨x, hx, hm⟩
    cases x <;> simp at hm
    subst hm
    exact ⟨_, hx⟩
  · rintro ⟨o, ho⟩
    exact ⟨_, ho, by simp⟩

/-- Witnessing characterization of `hasFnCall`. -/
theorem hasFnCall_iff (l : List ResponseItem) (cid : String) :
    hasFnCall l cid = true ↔
      ∃ a b c e, ResponseItem.functionCall a b c cid e ∈ l := by
  unfold hasFnCall
  rw [List.any_eq_true]
  constructor
  · rintro ⟨x, hx, hm⟩
    cases x <;> simp at hm
    subst hm
    exact ⟨_, _, _, _, hx⟩
  · rintro ⟨a, b, c, e, hp⟩
    exact ⟨_, hp, by simp⟩

/-- Witnessing characterization of `hasShellCall`. -/
theorem hasShellCall_iff (l : List ResponseItem) (cid : String) :
    hasShellCall l cid = true ↔
      ∃ a c d, ResponseItem.localShellCall a (some cid) c d ∈ l := by
  unfold hasShellCall
  rw [List.any_eq_true]
  constructor
  · rintro ⟨x, hx, hm⟩
    cases x <;> try simp at hm
    rename_i b _ _
    cases b <;> simp at hm
    subst hm
    exact ⟨_, _, _, hx⟩
  · rintro ⟨a, c, d, hp⟩
    exact ⟨_, hp, by simp⟩

/-- Witnessing characterization of `hasCustomCall`. -/
theorem hasCustomCall_iff (l : List ResponseItem) (cid : String) :
    hasCustomCall l cid = true ↔
      ∃ a c d e, ResponseItem.customToolCall a cid c d e ∈ l := by
  unfold hasCustomCall
  rw [List.any_eq_true]
  constructor
  · rintro ⟨x, hx, hm⟩
    cases x <;> simp at hm
    subst hm
    exact ⟨_, _, _, _, hx⟩
  · rintro ⟨a, c, d, e, hp⟩
    exact ⟨_, hp, by simp⟩

/-- C1: the projection returned by `get_history_for_prompt` satisfies the
pairing invariant — every `FunctionCall`, `CustomToolCall` or
`LocalShellCall` carrying a `call_id` has an output with the same `call_id`
and every output has a matching call — and the synthetic placeholder output
(content `"aborted (tool execution interrupted)"`) sits immediately after
any call of the history that lacked an output. -/
theorem c1_history_pairing (history : List ResponseItem) :
    pairingOk (get_history_for_prompt history) = true ∧
    (∀ c ∈ history, ∀ ph, placeholderFor c = some ph →
      lacksOutput history c = true →
      SegIn [c, ph] (get_history_for_prompt history)) := by
  constructor
  · unfold get_history_for_prompt
    rw [ensure_eq_pairFill]
    unfold pairingOk
    rw [List.all_eq_true]
    intro x hx
    have hx' := hx
    unfold remove_orphan_outputs at hx'
    rw [List.mem_filter] at hx'
    obtain ⟨hxE, hxPred⟩ := hx'
    cases x with
    | message a b c => rfl
    | reasoning a b c d => rfl
    | webSearchCall a b => rfl
    | ghostSnapshot => rfl
    | compactionSummary => rfl
    | other => rfl
    | functionCall a b d cid e =>
      show hasFnOutput (remove_orphan_outputs (pairFill history history)) cid = true
      apply (hasFnOutput_iff _ _).mpr
      rcases pairFill_mem history history _ hxE with hhist | ⟨y, hy, hphy, hlacky⟩
      · by_cases hout : hasFnOutput history cid = true
        · obtain ⟨p, hpmem⟩ := (hasFnOutput_iff _ _).mp hout
          refine ⟨p, ?_⟩
          unfold remove_orphan_outputs
          rw [List.mem_filter]
          refine ⟨mem_pairFill _ _ _ hpmem, ?_⟩
          have h1 : hasFnCall (pairFill history history) cid = true :=
            (hasFnCall_iff _ _).mpr ⟨a, b, d, e, hxE⟩
          simp [h1]
        · have houtF : hasFnOutput history cid = false := by
            revert hout
            cases hasFnOutput history cid <;> simp
          have hlack :
              lacksOutput history (ResponseItem.functionCall a b d cid e) = true := by
            simp [lacksOutput, houtF]
          obtain ⟨s, t, hst⟩ :=
            pairFill_placeholder_seg history history _ _ hhist rfl hlack
          refine ⟨⟨"aborted (tool execution interrupted)", none, none⟩, ?_⟩
          unfold remove_orphan_outputs
          rw [List.mem_filter]
          constructor
          · rw [hst]
            simp
          · have h1 : hasFnCall (pairFill history history) cid = true :=
              (hasFnCall_iff _ _).mpr ⟨a, b, d, e, hxE⟩
            simp [h1]
      · rcases placeholderFor_shape y _ hphy with ⟨c2, p2, heq⟩ | ⟨c2, o2, heq⟩ <;>
          simp at heq
    | customToolCall a cid nm inp st2 =>
      show hasCustomOutput (remove_orphan_outputs (pairFill history history)) cid = true
      apply (hasCustomOutput_iff _ _).mpr
      rcases pairFill_mem history history _ hxE with hhist | ⟨y, hy, hphy, hlacky⟩
      · by_cases hout : hasCustomOutput history cid = true
        · obtain ⟨o, homem⟩ := (hasCustomOutput_iff _ _).mp hout
          refine ⟨o, ?_⟩
          unfold remove_orphan_outputs
          rw [List.mem_filter]
          refine ⟨mem_pairFill _ _ _ homem, ?_⟩
          have h1 : hasCustomCall (pairFill history history) cid = true :=
            (hasCustomCall_iff _ _).mpr ⟨a, nm, inp, st2, hxE⟩
          simp [h1]
        · have houtF : hasCustomOutput history cid = false := by
            revert hout
            cases hasCustomOutput history cid <;> simp
          have hlack :
              lacksOutput history (ResponseItem.customToolCall a cid nm inp st2) = true := by
            simp [lacksOutput, houtF]
          obtain ⟨s, t, hst⟩ :=
            pairFill_placeholder_seg history history _ _ hhist rfl hlack
          refine ⟨"aborted (tool execution interrupted)", ?_⟩
          unfold remove_orphan_outputs
          rw [List.mem_filter]
          constructor
          · rw [hst]
            simp
          · have h1 : hasCustomCall (pairFill history history) cid = true :=
              (hasCustomCall_iff _ _).mpr ⟨a, nm, inp, st2, hxE⟩
            simp [h1]
      · rcases placeholderFor_shape y _ hphy with ⟨c2, p2, heq⟩ | ⟨c2, o2, heq⟩ <;>
          simp at heq
    | localShellCall a b st2 ac =>
      cases b with
      | none => rfl
      | some cid =>
        show hasFnOutput (remove_orphan_outputs (pairFill history history)) cid = true
        apply (hasFnOutput_iff _ _).mpr
        rcases pairFill_mem history history _ hxE with hhist | ⟨y, hy, hphy, hlacky⟩
        · by_cases hout : hasFnOutput history cid = true
          · obtain ⟨p, hpmem⟩ := (hasFnOutput_iff _ _).mp hout
            refine ⟨p, ?_⟩
            unfold remove_orphan_outputs
            rw [List.mem_filter]
            refine ⟨mem_pairFill _ _ _ hpmem, ?_⟩
            have h1 : hasShellCall (pairFill history history) cid = true :=
              (hasShellCall_iff _ _).mpr ⟨a, st2, ac, hxE⟩
            simp [h1]
          · have houtF : hasFnOutput history cid = false := by
              revert hout
              cases hasFnOutput history cid <;> simp
            have hlack :
                lacksOutput history
                  (ResponseItem.localShellCall a (some cid) st2 ac) = true := by
              simp [lacksOutput, houtF]
            obtain ⟨s, t, hst⟩ :=
              pairFill_placeholder_seg history history _ _ hhist rfl hlack
            refine ⟨⟨"aborted (tool execution interrupted)", none, none⟩, ?_⟩
            unfold remove_orphan_outputs
            rw [List.mem_filter]
            constructor
            · rw [hst]
              simp
            · have h1 : hasShellCall (pairFill history history) cid = true :=
                (hasShellCall_iff _ _).mpr ⟨a, st2, ac, hxE⟩
              simp [h1]
        · rcases placeholderFor_shape y _ hphy with ⟨c2, p2, heq⟩ | ⟨c2, o2, heq⟩ <;>
            simp at heq
    | functionCallOutput cid p =>
      show (hasFnCall (remove_orphan_outputs (pairFill history history)) cid ||
          hasShellCall (remove_orphan_outputs (pairFill history history)) cid) = true
      have hpred : (hasFnCall (pairFill history history) cid ||
          hasShellCall (pairFill history history) cid) = true := hxPred
      rw [Bool.or_eq_true] at hpred
      rcases hpred with hfc | hsc
      · obtain ⟨a2, b2, d2, e2, hmem⟩ := (hasFnCall_iff _ _).mp hfc
        have hmem2 : ResponseItem.functionCall a2 b2 d2 cid e2 ∈
            remove_orphan_outputs (pairFill history history) := by
          unfold remove_orphan_outputs
          rw [List.mem_filter]
          exact ⟨hmem, rfl⟩
        have h2 := (hasFnCall_iff _ _).mpr ⟨a2, b2, d2, e2, hmem2⟩
        simp [h2]
      · obtain ⟨a2, c2, d2, hmem⟩ := (hasShellCall_iff _ _).mp hsc
        have hmem2 : ResponseItem.localShellCall a2 (some cid) c2 d2 ∈
            remove_orphan_outputs (pairFill history history) := by
          unfold remove_orphan_outputs
          rw [List.mem_filter]
          exact ⟨hmem, rfl⟩
        have h2 := (hasShellCall_iff _ _).mpr ⟨a2, c2, d2, hmem2⟩
        simp [h2]
    | customToolCallOutput cid o =>
      show hasCustomCall (remove_orphan_outputs (pairFill history history)) cid = true
      have hpred : hasCustomCall (pairFill history history) cid = true := hxPred
      obtain ⟨a2, c2, d2, e2, hmem⟩ := (hasCustomCall_iff _ _).mp hpred
      have hmem2 : ResponseItem.customToolCall a2 cid c2 d2 e2 ∈
          remove_orphan_outputs (pairFill history history) := by
        unfold remove_orphan_outputs
        rw [List.mem_filter]
        exact ⟨hmem, rfl⟩
      exact (hasCustomCall_iff _ _).mpr ⟨a2, c2, d2, e2, hmem2⟩
  · intro c hc ph hph hlack
    unfold get_history_for_prompt
    rw [ensure_eq_pairFill]
    have hcE : c ∈ pairFill history history := mem_pairFill _ _ _ hc
    have hseg := pairFill_placeholder_seg history history c ph hc hph hlack
    unfold remove_orphan_outputs
    cases c with
    | functionCall a b d cid e =>
      simp only [placeholderFor, Option.some.injEq] at hph
      subst hph
      have h1 : hasFnCall (pairFill history history) cid = true :=
        (hasFnCall_iff _ _).mpr ⟨a, b, d, e, hcE⟩
      exact filter_seg _ _ _ _ rfl (by simp [h1]) hseg
    | customToolCall a cid nm inp st2 =>
      simp only [placeholderFor, Option.some.injEq] at hph
      subst hph
      have h1 : hasCustomCall (pairFill history history) cid = true :=
        (hasCustomCall_iff _ _).mpr ⟨a, nm, inp, st2, hcE⟩
      exact filter_seg _ _ _ _ rfl (by simp [h1]) hseg
    | localShellCall a b st2 ac =>
      cases b with
      | none => simp [placeholderFor] at hph
      | some cid =>
        simp only [placeholderFor, Option.some.injEq] at hph
        subst hph
        have h1 : hasShellCall (pairFill history history) cid = true :=
          (hasShellCall_iff _ _).mpr ⟨a, st2, ac, hcE⟩
        exact filter_seg _ _ _ _ rfl (by simp [h1]) hseg
    | message a b c2 => simp [placeholderFor] at hph
    | reasoning a b c2 d2 => simp [placeholderFor] at hph
    | functionCallOutput a b => simp [placeholderFor] at hph
    | customToolCallOutput a b => simp [placeholderFor] at hph
    | webSearchCall a b => simp [placeholderFor] at hph
    | ghostSnapshot => simp [placeholderFor] at hph
    | compactionSummary => simp [placeholderFor] at hph
    | other => simp [placeholderFor] at hph

/-- C6 counterexample: `c6CustomInput` holds a `CustomToolCall` with
`call_id = "c1"` and no provider `id`, and a `CustomToolCallOutput` with the
same `call_id`; the call's `call_id` is in the matched-output set, yet no
assembled message carries any `tool_calls` entry (the source keys the
`CustomToolCall` lookup by `id.unwrap_or_default()`, not by `call_id`). -/
theorem c6_output_matching_counterexample :
    (callIdsWithOutput c6CustomInput).contains "c1" = true ∧
      (build_chat_messages "inst" c6CustomInput).all
        (fun m => m.toolCalls.isEmpty) = true := by decide

/-- C6 (amended): in the assembled `messages` array, (a) every `tool_calls`
entry carries an `id` whose `unwrap_or_default` value has a matching tool
output in the input, so a call with no matching output is never emitted as a
`tool_calls` entry; (b) a `FunctionCall` is keyed by its `call_id`: with a
matching output it becomes an assistant message carrying one function-typed
`tool_calls` entry, without one it becomes a plain assistant text message
with the name, arguments, call id and `(No output recorded)`; (c) a
`CustomToolCall` is keyed by `id.unwrap_or_default()` — not by its
`call_id` — with the same two outcomes. -/
theorem c6_output_matching (instructions : String) (input : List ResponseItem) :
    (∀ m ∈ build_chat_messages instructions input, ∀ e ∈ m.toolCalls,
        (callIdsWithOutput input).contains (e.id.getD "") = true) ∧
    (∀ fid name args cid sig,
      ResponseItem.functionCall fid name args cid sig ∈ input →
      ((callIdsWithOutput input).contains cid = true →
        ∃ r, ChatMessage.mk "assistant" .nullContent
            [⟨some cid, "function", name, args, sig⟩] none r
            (sig.map fun s => (cid, s)) ∈ build_chat_messages instructions input) ∧
      ((callIdsWithOutput input).contains cid = false →
        ∃ r, ChatMessage.mk "assistant"
            (.strContent (functionCallFallbackText name args cid)) [] none r none
              ∈ build_chat_messages instructions input)) ∧
    (∀ id cid name inp status,
      ResponseItem.customToolCall id cid name inp status ∈ input →
      ((callIdsWithOutput input).contains (id.getD "") = true →
        ChatMessage.mk "assistant" .nullContent
            [⟨id, "function", name, jsonStringLit inp, none⟩] none none none
              ∈ build_chat_messages instructions input) ∧
      ((callIdsWithOutput input).contains (id.getD "") = false →
        ChatMessage.mk "assistant"
            (.strContent (customToolCallFallbackText name inp (id.getD ""))) []
              none none none ∈ build_chat_messages instructions input)) := by
  refine ⟨?_, ?_, ?_⟩
  · intro m hm e he
    unfold build_chat_messages at hm
    dsimp only at hm
    split at hm
    · rcases List.mem_cons.mp hm with rfl | hm'
      · simp at he
      · exact buildLoop_toolCalls_outputs _ _ _ _ _ _ m hm' e he
    · rcases List.mem_append.mp hm with hm' | hm'
      · rcases List.mem_cons.mp hm' with rfl | hm''
        · simp at he
        · exact buildLoop_toolCalls_outputs _ _ _ _ _ _ m hm'' e he
      · rcases List.mem_singleton.mp hm' with rfl
        simp at he
  · intro fid name args cid sig hmem
    constructor
    · intro hpos
      obtain ⟨r, hr⟩ :=
        buildLoop_functionCall_matched input _ _ fid name args cid sig hpos
          input 0 none hmem
      exact ⟨r, buildLoop_mem_build instructions input _ hr⟩
    · intro hneg
      obtain ⟨r, hr⟩ :=
        buildLoop_functionCall_unmatched input _ _ fid name args cid sig hneg
          input 0 none hmem
      exact ⟨r, buildLoop_mem_build instructions input _ hr⟩
  · intro id cid name inp status hmem
    constructor
    · intro hpos
      exact buildLoop_mem_build instructions input _
        (buildLoop_customToolCall_matched input _ _ id cid name inp status hpos
          input 0 none hmem)
    · intro hneg
      exact buildLoop_mem_build instructions input _
        (buildLoop_customToolCall_unmatched input _ _ id cid name inp status hneg
          input 0 none hmem)

end Codex
